import Mathlib

/-!
# TUBEGenerator: the curve sampler of `src/main.cpp`

Shallow embedding of `Tube::compute_curve`, `Tube::initialize_frame`,
`Tube::update_frenet_frame`, `Tube::operator==`, `valid_combination` and the
segment classes of `src/main.cpp`, and of the class `CORE::Tube` of
`src/headfile/tube.h`.

Conventions of the embedding.

* `float` and `double` values are idealised as elements of a linearly ordered
  field `F` with a floor function; rounding is not modelled.  The square root
  used by `glm::length` and `glm::normalize` is a parameter `sqrt : F → F`;
  theorems that need its defining property assume `IsSqrt sqrt`, which holds
  for `Real.sqrt` on `ℝ`.
* A division by zero yields `0` in the model where IEEE arithmetic yields an
  infinity or a NaN; the model is only read there as "not a unit vector".
  The definitions with the suffix `_nan` follow the same source lines with
  the NaN made explicit: a vector is an `Option`, and `none` stands for a
  vector with NaN components.
* C++ `int` values are mathematical integers (no wrap-around of the integer
  arithmetic is modelled); the conversion `int(x)` of a floating value is the
  32-bit conversion `to_int`, which is in range only for truncated values in
  `[INT_MIN, INT_MAX]`.
* The `double` arguments and fields of `CORE::Tube` are numbers or NaN
  (`Option`, `none` standing for NaN), compared with the IEEE comparisons
  `nan_le`, `nan_ge`, `nan_lt`, `nan_eq`; infinities are not modelled.
* The body of the `#pragma omp parallel for` loop is executed sequentially, in
  segment order.
* A write `points[k] = v` is recorded as the pair `(k, v)`; `write_points`
  replays the recorded writes on a buffer and is undefined (`none`) as soon as
  an index is outside the buffer.
-/

namespace TubeGen

/-- Vector of three scalars, `glm::vec3`. -/
@[ext]
structure Vec3 (F : Type) where
  x : F
  y : F
  z : F

/-- Vector of four scalars, `glm::vec4`. -/
@[ext]
structure Vec4 (F : Type) where
  x : F
  y : F
  z : F
  w : F

/-- The error kinds named by the specification (section 7).  The source
declares none of them. -/
inductive SamplingError where
  | InvalidGeometry
  | BufferSizeMismatch
  | DegenerateFrame
deriving DecidableEq

section Embedding

variable {F : Type} [LinearOrderedField F]

/-- Componentwise sum `a + b` of two `glm::vec3`. -/
def Vec3.add (a b : Vec3 F) : Vec3 F :=
  ⟨a.x + b.x, a.y + b.y, a.z + b.z⟩

/-- Product `s * v` of a scalar and a `glm::vec3`. -/
def Vec3.scale (s : F) (v : Vec3 F) : Vec3 F :=
  ⟨s * v.x, s * v.y, s * v.z⟩

/-- Product `v * s` of a `glm::vec3` and a scalar. -/
def Vec3.mulScalar (v : Vec3 F) (s : F) : Vec3 F :=
  ⟨v.x * s, v.y * s, v.z * s⟩

/-- The constructor `glm::vec3(s)`: all three components equal to `s`. -/
def Vec3.splat (s : F) : Vec3 F :=
  ⟨s, s, s⟩

/-- The constructor `glm::vec4(v, w)`. -/
def Vec4.ofVec3 (v : Vec3 F) (w : F) : Vec4 F :=
  ⟨v.x, v.y, v.z, w⟩

/-- Scalar product `glm::dot`. -/
def dot (a b : Vec3 F) : F :=
  a.x * b.x + a.y * b.y + a.z * b.z

/-- Vector product `glm::cross`. -/
def cross (a b : Vec3 F) : Vec3 F :=
  ⟨a.y * b.z - b.y * a.z, a.z * b.x - b.z * a.x, a.x * b.y - b.x * a.y⟩

/-- Euclidean norm `glm::length(v) = sqrt(dot(v, v))`. -/
def length (sqrt : F → F) (v : Vec3 F) : F :=
  sqrt (dot v v)

/-- Reciprocal square root `glm::inversesqrt(x) = 1 / sqrt(x)`. -/
def inversesqrt (sqrt : F → F) (x : F) : F :=
  1 / sqrt x

/-- Normalisation `glm::normalize(v) = v * inversesqrt(dot(v, v))`. -/
def normalize (sqrt : F → F) (v : Vec3 F) : Vec3 F :=
  v.mulScalar (inversesqrt sqrt (dot v v))

/-- Defining property of the square root on non-negative arguments. -/
def IsSqrt (sqrt : F → F) : Prop :=
  ∀ x : F, 0 ≤ x → 0 ≤ sqrt x ∧ sqrt x * sqrt x = x

/-- Class `Segment`: a stored length and a curvature vector. -/
structure Segment (F : Type) where
  length : F
  curvature : Vec3 F

/-- Constructor `LinearSegment(len)`: `Segment(len, glm::vec3(0.0f))`. -/
def LinearSegment (len : F) : Segment F :=
  ⟨len, Vec3.splat 0⟩

/-- Constructor `CurvedSegment(len, curv)`: `Segment(len * 2 * M_PI, curv)`;
the constant `M_PI` of `<cmath>` is the parameter `pi`. -/
def CurvedSegment (pi : F) (len : F) (curv : Vec3 F) : Segment F :=
  ⟨len * 2 * pi, curv⟩

/-- Class `Tube` of `src/main.cpp` with its eight public fields. -/
structure Tube (F : Type) where
  name : String
  length : F
  outer_diameter : F
  inner_diameter : F
  wall_thickness : F
  curvature : Vec3 F
  start_point : Vec3 F
  start_direction : Vec3 F

/-- The three frame vectors that `update_frenet_frame` receives by reference
and overwrites. -/
structure Frame (F : Type) where
  tangent : Vec3 F
  normal : Vec3 F
  binormal : Vec3 F

/-- Method `Tube::initialize_frame`: the pair `(normal, binormal)` written
through the two output references. -/
def initialize_frame (sqrt : F → F) (tangent : Vec3 F) : Vec3 F × Vec3 F :=
  let normal :=
    if dot tangent ⟨0, 0, 1⟩ ≥ 99 / 100 then
      normalize sqrt (cross tangent ⟨1, 0, 0⟩)
    else
      normalize sqrt (cross tangent ⟨0, 0, 1⟩)
  let binormal := normalize sqrt (cross normal tangent)
  (normal, binormal)

/-- Method `Tube::update_frenet_frame`: the frame left in the three references
after the call. -/
def update_frenet_frame (sqrt : F → F) (tangent normal binormal : Vec3 F)
    (curvature : Vec3 F) (ds : F) : Frame F :=
  let curvature_rotated :=
    ((Vec3.scale curvature.x tangent).add (Vec3.scale curvature.y normal)).add
      (Vec3.scale curvature.z binormal)
  let tangent := tangent.add (Vec3.scale ds curvature_rotated)
  let tangent := normalize sqrt tangent
  let normal := cross binormal tangent
  let normal := normalize sqrt normal
  let binormal := cross tangent normal
  let binormal := normalize sqrt binormal
  ⟨tangent, normal, binormal⟩

/-- The four local variables of one segment's sampling loop. -/
structure LocalState (F : Type) where
  local_position : Vec3 F
  local_tangent : Vec3 F
  local_normal : Vec3 F
  local_binormal : Vec3 F

/-- The two update statements of the inner loop body of `compute_curve`:
`local_position += ds * local_tangent`, then `update_frenet_frame`. -/
def sample_step (sqrt : F → F) (curvature : Vec3 F) (ds : F) (s : LocalState F) :
    LocalState F :=
  let local_position := s.local_position.add (Vec3.scale ds s.local_tangent)
  let fr := update_frenet_frame sqrt s.local_tangent s.local_normal s.local_binormal curvature ds
  ⟨local_position, fr.tangent, fr.normal, fr.binormal⟩

/-- Inner loop `for (int i = ...; i < dynamic_interpolation_points; ++i)` of
`compute_curve` with `remaining` iterations left: each iteration records the
write `points[point_index + i] = vec4(local_position, 1.0f)` and then advances
the local state. -/
def sample_loop (sqrt : F → F) (point_index : Int) (curvature : Vec3 F) (ds : F) :
    Nat → Int → LocalState F → List (Int × Vec4 F)
  | 0, _, _ => []
  | remaining + 1, i, s =>
      (point_index + i, Vec4.ofVec3 s.local_position 1) ::
        sample_loop sqrt point_index curvature ds remaining (i + 1)
          (sample_step sqrt curvature ds s)

/-- The local `total_points = base_interpolation_points * segment_data.size()`
of `compute_curve`. -/
def total_points (base_interpolation_points : Int) (segment_data : List (Segment F)) : Int :=
  base_interpolation_points * (segment_data.length : Int)

/-- One element assignment `points[k] = v` on a `std::vector`: defined only for
`0 ≤ k < points.size()`. -/
def write_point (points : List (Vec4 F)) (k : Int) (v : Vec4 F) : Option (List (Vec4 F)) :=
  if 0 ≤ k ∧ k < (points.length : Int) then some (points.set k.toNat v) else none

/-- Replay of a sequence of element assignments on the buffer `points`. -/
def write_points (points : List (Vec4 F)) : List (Int × Vec4 F) → Option (List (Vec4 F))
  | [] => some points
  | (k, v) :: rest => (write_point points k v).bind fun points => write_points points rest

/-- The tube constructed in `main` of `src/main.cpp`. -/
def example_tube : Tube F :=
  ⟨"ExampleTube", 2, 1, 8 / 10, 1 / 10, ⟨0, 0, 0⟩, ⟨0, 0, 0⟩, ⟨1, 0, 0⟩⟩

/-- The segment chain constructed in `main` of `src/main.cpp`. -/
def example_segment_data (pi : F) : List (Segment F) :=
  [LinearSegment 1, CurvedSegment pi (1 / 2) ⟨1 / 10, 2 / 10, 3 / 10⟩]

/-- Componentwise negation `-v` of a `glm::vec3`. -/
def Vec3.neg (v : Vec3 F) : Vec3 F :=
  ⟨-v.x, -v.y, -v.z⟩

/-- Comparison `a == b` of two `glm::vec3`: all three components are equal. -/
def Vec3.operator_eq (a b : Vec3 F) : Bool :=
  decide (a.x = b.x) && decide (a.y = b.y) && decide (a.z = b.z)

/-- Method `Tube::operator==` of `src/main.cpp`: the comparison of the two
`std::tie` tuples of `name`, `length`, `outer_diameter`, `inner_diameter`,
`wall_thickness` and `curvature`. -/
def Tube.operator_eq (self other : Tube F) : Bool :=
  decide (self.name = other.name) && decide (self.length = other.length) &&
    decide (self.outer_diameter = other.outer_diameter) &&
    decide (self.inner_diameter = other.inner_diameter) &&
    decide (self.wall_thickness = other.wall_thickness) &&
    Vec3.operator_eq self.curvature other.curvature

/-- Function `valid_combination(inner, outer)` of `src/main.cpp`. -/
def valid_combination (inner outer : Tube F) : Bool :=
  decide (outer.inner_diameter > inner.outer_diameter) &&
    decide (outer.length ≥ inner.length)

/-- Comparison `a == b` of two `double` values, `none` standing for NaN: a NaN
is not equal to anything, itself included. -/
def nan_eq (a b : Option F) : Bool :=
  match a, b with
  | some x, some y => decide (x = y)
  | _, _ => false

/-- Class `CORE::Tube` of `src/headfile/tube.h` with its six private fields.
Each `double` field is a number or NaN (`none`). -/
structure CORE.Tube (F : Type) where
  _name : String
  _length : Option F
  _outer_diameter : Option F
  _inner_diameter : Option F
  _wall_thickness : Option F
  _curvature : Vec3 F

/-- Method `CORE::Tube::operator==` of `src/headfile/tube.h`. -/
def CORE.Tube.operator_eq (self other : CORE.Tube F) : Bool :=
  decide (self._name = other._name) && nan_eq self._length other._length &&
    nan_eq self._outer_diameter other._outer_diameter &&
    nan_eq self._inner_diameter other._inner_diameter &&
    nan_eq self._wall_thickness other._wall_thickness &&
    Vec3.operator_eq self._curvature other._curvature

/-- NaN-propagating lift of a binary vector operation: the result has NaN
components (`none`) as soon as one operand has. -/
def nan_lift2 (f : Vec3 F → Vec3 F → Vec3 F) (a b : Option (Vec3 F)) : Option (Vec3 F) :=
  a.bind fun a => b.bind fun b => some (f a b)

/-- Function `glm::normalize` with the IEEE outcome of a division by zero made
explicit: for the zero vector `inversesqrt(0)` is an infinity and `0 * inf` is
NaN in every component (`none`); a NaN operand gives NaN; otherwise the value
is that of `normalize`. -/
def normalize_nan (sqrt : F → F) (v : Option (Vec3 F)) : Option (Vec3 F) :=
  v.bind fun v => if dot v v = 0 then none else some (normalize sqrt v)

/-- Method `Tube::initialize_frame` on vectors that may be NaN.  A comparison
with a NaN operand is false, so a NaN tangent takes the `else` branch. -/
def initialize_frame_nan (sqrt : F → F) (tangent : Option (Vec3 F)) :
    Option (Vec3 F) × Option (Vec3 F) :=
  let normal :=
    match tangent with
    | some t =>
      if dot t ⟨0, 0, 1⟩ ≥ 99 / 100 then
        normalize_nan sqrt (some (cross t ⟨1, 0, 0⟩))
      else
        normalize_nan sqrt (some (cross t ⟨0, 0, 1⟩))
    | none => none
  let binormal := normalize_nan sqrt (nan_lift2 cross normal tangent)
  (normal, binormal)

/-- The four local variables of one segment's sampling loop, each possibly
NaN. -/
structure LocalStateNan (F : Type) where
  local_position : Option (Vec3 F)
  local_tangent : Option (Vec3 F)
  local_normal : Option (Vec3 F)
  local_binormal : Option (Vec3 F)

/-- Method `Tube::update_frenet_frame` on vectors that may be NaN (the
curvature and the step are finite): the product of a finite scalar, zero
included, and a NaN vector is NaN. -/
def update_frenet_frame_nan (sqrt : F → F) (tangent normal binormal : Option (Vec3 F))
    (curvature : Vec3 F) (ds : F) : Option (Vec3 F) × Option (Vec3 F) × Option (Vec3 F) :=
  let curvature_rotated :=
    nan_lift2 Vec3.add
      (nan_lift2 Vec3.add (tangent.map (Vec3.scale curvature.x))
        (normal.map (Vec3.scale curvature.y)))
      (binormal.map (Vec3.scale curvature.z))
  let tangent := nan_lift2 Vec3.add tangent (curvature_rotated.map (Vec3.scale ds))
  let tangent := normalize_nan sqrt tangent
  let normal := nan_lift2 cross binormal tangent
  let normal := normalize_nan sqrt normal
  let binormal := nan_lift2 cross tangent normal
  let binormal := normalize_nan sqrt binormal
  (tangent, normal, binormal)

/-- The two update statements of the inner loop body on vectors that may be
NaN. -/
def sample_step_nan (sqrt : F → F) (curvature : Vec3 F) (ds : F) (s : LocalStateNan F) :
    LocalStateNan F :=
  let local_position :=
    nan_lift2 Vec3.add s.local_position (s.local_tangent.map (Vec3.scale ds))
  let fr :=
    update_frenet_frame_nan sqrt s.local_tangent s.local_normal s.local_binormal curvature ds
  ⟨local_position, fr.1, fr.2.1, fr.2.2⟩

/-- Inner loop of `compute_curve` on vectors that may be NaN; a written point
whose coordinates are NaN is recorded as `none`. -/
def sample_loop_nan (sqrt : F → F) (point_index : Int) (curvature : Vec3 F) (ds : F) :
    Nat → Int → LocalStateNan F → List (Int × Option (Vec4 F))
  | 0, _, _ => []
  | remaining + 1, i, s =>
      (point_index + i, s.local_position.map fun p => Vec4.ofVec3 p 1) ::
        sample_loop_nan sqrt point_index curvature ds remaining (i + 1)
          (sample_step_nan sqrt curvature ds s)

/-- A possibly-NaN value agrees with an exact value: it is NaN or equal to
it. -/
def AgreesWith {α : Type} (o : Option α) (v : α) : Prop :=
  ∀ x, o = some x → x = v

/-- A frame `(t, n, b)` is right-handed and orthonormal: the three vectors have
unit length, are pairwise orthogonal and `cross(t, n) = b`. -/
def IsRightHandedOrthonormal (sqrt : F → F) (t n b : Vec3 F) : Prop :=
  length sqrt t = 1 ∧ length sqrt n = 1 ∧ length sqrt b = 1 ∧
    dot t n = 0 ∧ dot t b = 0 ∧ dot n b = 0 ∧ cross t n = b

/-- The integrator step as the specification words it (section 4.4). -/
def spec_integrator_step (sqrt : F → F) (k : Vec3 F) (ds : F)
    (position tangent normal binormal : Vec3 F) : LocalState F :=
  let rotated : Vec3 F :=
    ⟨k.x * tangent.x + k.y * normal.x + k.z * binormal.x,
     k.x * tangent.y + k.y * normal.y + k.z * binormal.y,
     k.x * tangent.z + k.y * normal.z + k.z * binormal.z⟩
  let tangent' : Vec3 F :=
    normalize sqrt ⟨tangent.x + ds * rotated.x, tangent.y + ds * rotated.y,
      tangent.z + ds * rotated.z⟩
  let normal' : Vec3 F := normalize sqrt (cross binormal tangent')
  let binormal' : Vec3 F := normalize sqrt (cross tangent' normal')
  let position' : Vec3 F :=
    ⟨position.x + ds * tangent.x, position.y + ds * tangent.y, position.z + ds * tangent.z⟩
  ⟨position', tangent', normal', binormal'⟩

/-- The property of section 8 for straight tubes: the written points, in output
order, are `start_point + t · normalize(start_direction)` for a strictly
increasing sequence of parameters `t`. -/
def spec_on_line_increasing (sqrt : F → F) (tube : Tube F) (writes : List (Int × Vec4 F)) :
    Prop :=
  ∃ t : List F, t.Pairwise (fun a b => a < b) ∧
    List.Forall₂
      (fun ti w => w.2 = Vec4.ofVec3
        (tube.start_point.add (Vec3.scale ti (normalize sqrt tube.start_direction))) 1)
      t writes

variable [FloorRing F]

/-- Smallest value of the 32-bit type `int`. -/
def INT_MIN : Int :=
  -2147483648

/-- Largest value of the 32-bit type `int`. -/
def INT_MAX : Int :=
  2147483647

/-- Conversion `int(x)` of a floating value to the 32-bit type `int`:
truncation toward zero when the truncated value is in `[INT_MIN, INT_MAX]`.
Outside this range the conversion has no defined result in C++; the model
takes `INT_MIN`, the result of the x86 conversion instruction. -/
def to_int (x : F) : Int :=
  if -2147483649 < x ∧ x < 2147483648 then
    if 0 ≤ x then ⌊x⌋ else ⌈x⌉
  else
    INT_MIN

/-- The expression `std::max(base_interpolation_points,
int(base_interpolation_points * curvature_magnitude))` of `compute_curve`. -/
def dynamic_interpolation_points (base_interpolation_points : Int)
    (curvature_magnitude : F) : Int :=
  max base_interpolation_points
    (to_int ((base_interpolation_points : F) * curvature_magnitude))

/-- The step size `ds = segment->length / dynamic_interpolation_points` of
`compute_curve`. -/
def step_size (sqrt : F → F) (base_interpolation_points : Int) (segment : Segment F) : F :=
  segment.length /
    ((dynamic_interpolation_points base_interpolation_points
      (length sqrt segment.curvature) : Int) : F)

/-- Outer loop of `compute_curve` over the remaining segments, with the current
value of `point_index`.  The variables `position`, `tangent`, `normal` and
`binormal` are only read by the loop body. -/
def segment_loop (sqrt : F → F) (base_interpolation_points : Int)
    (position tangent normal binormal : Vec3 F) :
    List (Segment F) → Int → List (Int × Vec4 F)
  | [], _ => []
  | segment :: rest, point_index =>
      let curvature_magnitude := length sqrt segment.curvature
      let dynamic_interpolation_points :=
        dynamic_interpolation_points base_interpolation_points curvature_magnitude
      let ds := segment.length / ((dynamic_interpolation_points : Int) : F)
      let s : LocalState F := ⟨position, tangent, normal, binormal⟩
      sample_loop sqrt point_index segment.curvature ds
          dynamic_interpolation_points.toNat 0 s ++
        segment_loop sqrt base_interpolation_points position tangent normal binormal rest
          (point_index + dynamic_interpolation_points)

/-- Method `Tube::compute_curve`: the writes to `points`, in execution order. -/
def compute_curve (sqrt : F → F) (tube : Tube F) (segment_data : List (Segment F))
    (base_interpolation_points : Int) : List (Int × Vec4 F) :=
  let position := tube.start_point
  let tangent := normalize sqrt tube.start_direction
  let frame := initialize_frame sqrt tangent
  segment_loop sqrt base_interpolation_points position tangent frame.1 frame.2
    segment_data 0

/-- Outer loop of `compute_curve` on vectors that may be NaN. -/
def segment_loop_nan (sqrt : F → F) (base_interpolation_points : Int)
    (position tangent normal binormal : Option (Vec3 F)) :
    List (Segment F) → Int → List (Int × Option (Vec4 F))
  | [], _ => []
  | segment :: rest, point_index =>
      let curvature_magnitude := length sqrt segment.curvature
      let dynamic_interpolation_points :=
        dynamic_interpolation_points base_interpolation_points curvature_magnitude
      let ds := segment.length / ((dynamic_interpolation_points : Int) : F)
      let s : LocalStateNan F := ⟨position, tangent, normal, binormal⟩
      sample_loop_nan sqrt point_index segment.curvature ds
          dynamic_interpolation_points.toNat 0 s ++
        segment_loop_nan sqrt base_interpolation_points position tangent normal binormal rest
          (point_index + dynamic_interpolation_points)

/-- Method `Tube::compute_curve` with NaN propagation: the writes to `points`,
in execution order, a point with NaN coordinates being recorded as `none`.
The tube's fields and the segments hold finite numbers. -/
def compute_curve_nan (sqrt : F → F) (tube : Tube F) (segment_data : List (Segment F))
    (base_interpolation_points : Int) : List (Int × Option (Vec4 F)) :=
  let position := some tube.start_point
  let tangent := normalize_nan sqrt (some tube.start_direction)
  let frame := initialize_frame_nan sqrt tangent
  segment_loop_nan sqrt base_interpolation_points position tangent frame.1 frame.2
    segment_data 0

/-- The sample count as the specification words it:
`N = max(B, floor(B · |κ|))`. -/
def spec_sample_count (B : Int) (m : F) : Int :=
  max B ⌊(B : F) * m⌋

/-- Outcome of a call of `Tube::compute_curve`.  The method has return type
`void`, validates nothing and has no `throw` statement, so every call returns
normally with the writes it made. -/
def compute_curve_result (sqrt : F → F) (tube : Tube F) (segment_data : List (Segment F))
    (base_interpolation_points : Int) : Except SamplingError (List (Int × Vec4 F)) :=
  Except.ok (compute_curve sqrt tube segment_data base_interpolation_points)

end Embedding

/-! ## Elementary facts about the square root, the norm and the truncation -/

section Basics

variable {F : Type} [LinearOrderedField F]

theorem IsSqrt.nonneg {sqrt : F → F} (hs : IsSqrt sqrt) {x : F} (hx : 0 ≤ x) : 0 ≤ sqrt x :=
  (hs x hx).1

theorem IsSqrt.mul_self {sqrt : F → F} (hs : IsSqrt sqrt) {x : F} (hx : 0 ≤ x) :
    sqrt x * sqrt x = x :=
  (hs x hx).2

theorem IsSqrt.sqrt_mul_self {sqrt : F → F} (hs : IsSqrt sqrt) {a : F} (ha : 0 ≤ a) :
    sqrt (a * a) = a := by
  have h0 : 0 ≤ a * a := mul_nonneg ha ha
  have h1 := hs.nonneg h0
  have h2 := hs.mul_self h0
  nlinarith [mul_self_nonneg (sqrt (a * a) - a), mul_nonneg h1 ha]

theorem IsSqrt.sqrt_zero {sqrt : F → F} (hs : IsSqrt sqrt) : sqrt 0 = 0 := by
  simpa using hs.sqrt_mul_self (le_refl (0 : F))

theorem IsSqrt.sqrt_one {sqrt : F → F} (hs : IsSqrt sqrt) : sqrt 1 = 1 := by
  simpa using hs.sqrt_mul_self (zero_le_one (α := F))

theorem IsSqrt.ne_zero {sqrt : F → F} (hs : IsSqrt sqrt) {x : F} (hx : 0 < x) : sqrt x ≠ 0 := by
  intro h
  have h2 := hs.mul_self hx.le
  rw [h] at h2
  simp at h2
  exact (ne_of_gt hx) h2.symm

theorem real_isSqrt : IsSqrt Real.sqrt :=
  fun x hx => ⟨Real.sqrt_nonneg x, Real.mul_self_sqrt hx⟩

theorem dot_self_nonneg (v : Vec3 F) : 0 ≤ dot v v := by
  unfold dot
  nlinarith [mul_self_nonneg v.x, mul_self_nonneg v.y, mul_self_nonneg v.z]

theorem length_nonneg {sqrt : F → F} (hs : IsSqrt sqrt) (v : Vec3 F) : 0 ≤ length sqrt v :=
  hs.nonneg (dot_self_nonneg v)

theorem length_splat_zero {sqrt : F → F} (hs : IsSqrt sqrt) :
    length sqrt (Vec3.splat (0 : F)) = 0 := by
  simp [length, dot, Vec3.splat, hs.sqrt_zero]

theorem length_x_axis {sqrt : F → F} (hs : IsSqrt sqrt) {a : F} (ha : 0 ≤ a) :
    length sqrt (⟨a, 0, 0⟩ : Vec3 F) = a := by
  simp [length, dot, hs.sqrt_mul_self ha]

variable [FloorRing F]

theorem to_int_of_nonneg {x : F} (hx : 0 ≤ x) (hr : x < 2147483648) : to_int x = ⌊x⌋ := by
  have h : (-2147483649 : F) < x ∧ x < 2147483648 :=
    ⟨lt_of_lt_of_le (by norm_num) hx, hr⟩
  simp [to_int, hx, h]

theorem to_int_of_out_of_range {x : F} (hr : 2147483648 ≤ x) : to_int x = INT_MIN := by
  have h : ¬ ((-2147483649 : F) < x ∧ x < 2147483648) := fun h => absurd hr (not_le.mpr h.2)
  simp [to_int, h]

theorem to_int_nonpos {x : F} (hx : x ≤ 0) : to_int x ≤ 0 := by
  unfold to_int
  split_ifs with hr h
  · have : x = 0 := le_antisymm hx h
    simp [this]
  · exact Int.ceil_le.mpr (by simpa using hx)
  · decide

theorem to_int_le_INT_MAX (x : F) : to_int x ≤ INT_MAX := by
  unfold to_int
  split_ifs with hr h
  · have h1 : ⌊x⌋ < 2147483648 := by
      rw [Int.floor_lt]
      exact_mod_cast hr.2
    unfold INT_MAX
    omega
  · push_neg at h
    have h1 : ⌈x⌉ ≤ 0 := Int.ceil_le.mpr (by simpa using h.le)
    unfold INT_MAX
    omega
  · decide

end Basics

/-! ## The adaptive point count (C4, C5) -/

section AdaptiveCount

variable {F : Type} [LinearOrderedField F]

theorem length_example_curvature {sqrt : F → F} (hs : IsSqrt sqrt) :
    0 < length sqrt (⟨1 / 10, 2 / 10, 3 / 10⟩ : Vec3 F) ∧
    37 / 100 < length sqrt (⟨1 / 10, 2 / 10, 3 / 10⟩ : Vec3 F) ∧
    length sqrt (⟨1 / 10, 2 / 10, 3 / 10⟩ : Vec3 F) < 38 / 100 := by
  have hd : dot (⟨1 / 10, 2 / 10, 3 / 10⟩ : Vec3 F) ⟨1 / 10, 2 / 10, 3 / 10⟩ = 14 / 100 := by
    simp only [dot]
    norm_num
  have h0 : (0 : F) ≤ 14 / 100 := by norm_num
  have h1 := hs.nonneg h0
  have h2 := hs.mul_self h0
  unfold length
  rw [hd]
  refine ⟨?_, ?_, ?_⟩
  · rcases h1.lt_or_eq with h | h
    · exact h
    · rw [← h] at h2
      norm_num at h2
  · by_contra hc
    push_neg at hc
    nlinarith
  · by_contra hc
    push_neg at hc
    nlinarith

variable [FloorRing F]

theorem dynamic_interpolation_points_eq_max_floor {B : Int} (hB : 0 < B) {m : F} (hm : 0 ≤ m)
    (hr : (B : F) * m < 2147483648) :
    dynamic_interpolation_points B m = max B ⌊(B : F) * m⌋ := by
  have hBF : (0 : F) ≤ (B : F) := by exact_mod_cast hB.le
  unfold dynamic_interpolation_points
  rw [to_int_of_nonneg (mul_nonneg hBF hm) hr]

theorem dynamic_interpolation_points_eq_base_iff {B : Int} (hB : 0 < B) {m : F} (hm : 0 ≤ m)
    (hr : (B : F) * m < 2147483648) :
    dynamic_interpolation_points B m = B ↔ (B : F) * m < (B : F) + 1 := by
  rw [dynamic_interpolation_points_eq_max_floor hB hm hr, max_eq_left_iff, Int.floor_le_iff]

theorem max_to_int_eq_max_floor (B : Int) {p : F} (hp : 0 ≤ p) (hr : p < 2147483648) :
    max B (to_int p) = max B ⌊p⌋ := by
  rw [to_int_of_nonneg hp hr]

theorem max_to_int_eq_base_iff (B : Int) {p : F} (hp : 0 ≤ p) (hr : p < 2147483648) :
    max B (to_int p) = B ↔ p < (B : F) + 1 := by
  rw [max_to_int_eq_max_floor B hp hr, max_eq_left_iff, Int.floor_le_iff]

theorem dynamic_interpolation_points_le_INT_MAX {B : Int} (hB : B ≤ INT_MAX) (m : F) :
    dynamic_interpolation_points B m ≤ INT_MAX :=
  max_le hB (to_int_le_INT_MAX _)

/-- C5 as stated fails: with base density `100000` and curvature
`(30000, 0, 0)` the product `B * m = 3000000000` is outside the range of
`int`; the count is `100000` (and at most `INT_MAX` whatever the conversion
yields), not `max(B, floor(B * m)) = 3000000000`. -/
theorem C5_counterexample :
    dynamic_interpolation_points (100000 : Int)
      (length Real.sqrt (⟨30000, 0, 0⟩ : Vec3 ℝ)) = 100000 ∧
    spec_sample_count (100000 : Int) (length Real.sqrt (⟨30000, 0, 0⟩ : Vec3 ℝ)) =
      3000000000 ∧
    dynamic_interpolation_points (100000 : Int)
      (length Real.sqrt (⟨30000, 0, 0⟩ : Vec3 ℝ)) ≤ INT_MAX ∧
    INT_MAX < spec_sample_count (100000 : Int) (length Real.sqrt (⟨30000, 0, 0⟩ : Vec3 ℝ)) := by
  have hm : length Real.sqrt (⟨30000, 0, 0⟩ : Vec3 ℝ) = 30000 :=
    length_x_axis real_isSqrt (by norm_num)
  have hspec : spec_sample_count (100000 : Int) (30000 : ℝ) = 3000000000 := by
    have hf : ⌊((100000 : Int) : ℝ) * 30000⌋ = 3000000000 := by
      rw [Int.floor_eq_iff]
      norm_num
    simp only [spec_sample_count, hf]
    decide
  rw [hm]
  refine ⟨?_, hspec, dynamic_interpolation_points_le_INT_MAX (by decide) _, ?_⟩
  · unfold dynamic_interpolation_points
    rw [to_int_of_out_of_range (by norm_num)]
    decide
  · rw [hspec]
    decide

/-- C5 (amended): for a positive base density `B` and a computed curvature
magnitude `m ≥ 0` whose product `B * m` is below `2^31`, so that `int(B * m)`
is in the range of `int`, the count `std::max(B, int(B * m))` computed by
`compute_curve` is `max(B, floor(B * m))`; this holds for every value `p` with
`0 ≤ p < 2^31` of the product, however it was rounded.  The step size of a
segment is its stored length divided by that count, and the loop over the
segments samples the segment with exactly this count and this step size.  The
square root is any function with a non-negative result on the segment's
curvature. -/
theorem C5_sample_count_and_step_size (sqrt : F → F) (B : Int) (hB : 0 < B)
    (p : F) (hp : 0 ≤ p) (hpr : p < 2147483648)
    (m : F) (hm : 0 ≤ m) (hr : (B : F) * m < 2147483648) (segment : Segment F)
    (hseg : 0 ≤ length sqrt segment.curvature)
    (hsegr : (B : F) * length sqrt segment.curvature < 2147483648)
    (rest : List (Segment F)) (position tangent normal binormal : Vec3 F) (point_index : Int) :
    max B (to_int p) = max B ⌊p⌋ ∧
    dynamic_interpolation_points B m = spec_sample_count B m ∧
    dynamic_interpolation_points B (length sqrt segment.curvature) =
      spec_sample_count B (length sqrt segment.curvature) ∧
    step_size sqrt B segment =
      segment.length / ((spec_sample_count B (length sqrt segment.curvature) : Int) : F) ∧
    segment_loop sqrt B position tangent normal binormal (segment :: rest) point_index =
      sample_loop sqrt point_index segment.curvature
          (segment.length / ((spec_sample_count B (length sqrt segment.curvature) : Int) : F))
          (spec_sample_count B (length sqrt segment.curvature)).toNat 0
          ⟨position, tangent, normal, binormal⟩ ++
        segment_loop sqrt B position tangent normal binormal rest
          (point_index + spec_sample_count B (length sqrt segment.curvature)) := by
  have h : dynamic_interpolation_points B (length sqrt segment.curvature) =
      spec_sample_count B (length sqrt segment.curvature) :=
    dynamic_interpolation_points_eq_max_floor hB hseg hsegr
  refine ⟨max_to_int_eq_max_floor B hp hpr,
    dynamic_interpolation_points_eq_max_floor hB hm hr, h, ?_, ?_⟩
  · unfold step_size
    rw [h]
  · simp only [segment_loop]
    rw [h]

/-- Witness of the amended C5 over the reals: base density `100`, magnitude
`1/2` and the chain of the demo program, sampled from the standard frame at
the origin. -/
theorem C5_sample_count_and_step_size_witness :
    (0 : Int) < 100 ∧ (0 : ℝ) ≤ 75 / 2 ∧ (75 / 2 : ℝ) < 2147483648 ∧
    (0 : ℝ) ≤ 1 / 2 ∧ ((100 : Int) : ℝ) * (1 / 2) < 2147483648 ∧
    0 ≤ length Real.sqrt (LinearSegment (1 : ℝ)).curvature ∧
    ((100 : Int) : ℝ) * length Real.sqrt (LinearSegment (1 : ℝ)).curvature < 2147483648 ∧
    dynamic_interpolation_points 100 (1 / 2 : ℝ) = spec_sample_count 100 (1 / 2 : ℝ) ∧
    step_size Real.sqrt 100 (LinearSegment 1) =
      (LinearSegment (1 : ℝ)).length /
        ((spec_sample_count 100
          (length Real.sqrt (LinearSegment (1 : ℝ)).curvature) : Int) : ℝ) :=
  have h1 : (0 : ℝ) ≤ length Real.sqrt (LinearSegment (1 : ℝ)).curvature :=
    length_nonneg real_isSqrt _
  have h2 : ((100 : Int) : ℝ) * length Real.sqrt (LinearSegment (1 : ℝ)).curvature <
      2147483648 := by
    simp only [LinearSegment, length_splat_zero real_isSqrt]
    norm_num
  ⟨by decide, by norm_num, by norm_num, by norm_num, by norm_num, h1, h2,
    (C5_sample_count_and_step_size Real.sqrt 100 (by decide) (75 / 2) (by norm_num)
      (by norm_num) (1 / 2) (by norm_num) (by norm_num) (LinearSegment 1) h1 h2
      [CurvedSegment Real.pi (1 / 2) ⟨1 / 10, 2 / 10, 3 / 10⟩]
      ⟨0, 0, 0⟩ ⟨1, 0, 0⟩ ⟨0, 1, 0⟩ ⟨0, 0, 1⟩ 0).2.1,
    (C5_sample_count_and_step_size Real.sqrt 100 (by decide) (75 / 2) (by norm_num)
      (by norm_num) (1 / 2) (by norm_num) (by norm_num) (LinearSegment 1) h1 h2
      [CurvedSegment Real.pi (1 / 2) ⟨1 / 10, 2 / 10, 3 / 10⟩]
      ⟨0, 0, 0⟩ ⟨1, 0, 0⟩ ⟨0, 1, 0⟩ ⟨0, 0, 1⟩ 0).2.2.2.1⟩

/-- C4 as stated fails: for the curved segment of the demo program (curvature
`(0.1, 0.2, 0.3)`) and base density `100` the count equals the base density
although the curvature magnitude is not `0`. -/
theorem C4_counterexample :
    ¬ (dynamic_interpolation_points (100 : Int)
          (length Real.sqrt
            (CurvedSegment Real.pi (1 / 2) ⟨1 / 10, 2 / 10, 3 / 10⟩).curvature) = 100 ↔
        length Real.sqrt
          (CurvedSegment Real.pi (1 / 2) ⟨1 / 10, 2 / 10, 3 / 10⟩).curvature = 0) := by
  obtain ⟨hpos, -, hlt⟩ := length_example_curvature real_isSqrt
  simp only [CurvedSegment]
  rw [dynamic_interpolation_points_eq_base_iff (by decide) hpos.le (by push_cast; linarith)]
  intro h
  have h0 := h.1 (by push_cast; linarith)
  linarith

/-- C4 (amended): for a positive base density `B` the count `N` satisfies
`N ≥ B` for every value of the curvature magnitude, and `N = B` when the
magnitude is `0`; for a computed magnitude `m ≥ 0` whose product `B * m` is
below `2^31` (in the range of `int`), `N = B` holds exactly when
`B * m < B + 1`, and likewise for every value `p` with `0 ≤ p < 2^31` of the
product, however it was rounded. -/
theorem C4_count_ge_base (B : Int) (hB : 0 < B) (m : F) (hm : 0 ≤ m)
    (hr : (B : F) * m < 2147483648) (p : F) (hp : 0 ≤ p) (hpr : p < 2147483648) (m' : F) :
    B ≤ dynamic_interpolation_points B m' ∧
    (dynamic_interpolation_points B m = B ↔ (B : F) * m < (B : F) + 1) ∧
    (max B (to_int p) = B ↔ p < (B : F) + 1) ∧
    dynamic_interpolation_points B (0 : F) = B := by
  refine ⟨le_max_left _ _, dynamic_interpolation_points_eq_base_iff hB hm hr,
    max_to_int_eq_base_iff B hp hpr, ?_⟩
  rw [dynamic_interpolation_points_eq_base_iff hB (le_refl 0) (by norm_num)]
  simp
  exact_mod_cast (by omega : (0 : Int) < B + 1)

/-- Witness of the amended C4: base density `100`, the magnitude of the curved
segment of the demo program, and the magnitude `30000` for the lower bound. -/
theorem C4_count_ge_base_witness :
    (0 : Int) < 100 ∧
    (0 : ℝ) ≤ length Real.sqrt (⟨1 / 10, 2 / 10, 3 / 10⟩ : Vec3 ℝ) ∧
    ((100 : Int) : ℝ) * length Real.sqrt (⟨1 / 10, 2 / 10, 3 / 10⟩ : Vec3 ℝ) < 2147483648 ∧
    (100 : Int) ≤ dynamic_interpolation_points 100 (30000 : ℝ) ∧
    (dynamic_interpolation_points 100
        (length Real.sqrt (⟨1 / 10, 2 / 10, 3 / 10⟩ : Vec3 ℝ)) = 100 ↔
      ((100 : Int) : ℝ) * length Real.sqrt (⟨1 / 10, 2 / 10, 3 / 10⟩ : Vec3 ℝ) <
        ((100 : Int) : ℝ) + 1) ∧
    (max (100 : Int) (to_int (75 / 2 : ℝ)) = 100 ↔ (75 / 2 : ℝ) < ((100 : Int) : ℝ) + 1) ∧
    dynamic_interpolation_points 100 (0 : ℝ) = 100 :=
  have h1 : (0 : ℝ) ≤ length Real.sqrt (⟨1 / 10, 2 / 10, 3 / 10⟩ : Vec3 ℝ) :=
    length_nonneg real_isSqrt _
  have h2 : ((100 : Int) : ℝ) * length Real.sqrt (⟨1 / 10, 2 / 10, 3 / 10⟩ : Vec3 ℝ) <
      2147483648 := by
    have := (length_example_curvature real_isSqrt).2.2
    push_cast
    linarith
  ⟨by decide, h1, h2,
    C4_count_ge_base 100 (by decide) _ h1 h2 (75 / 2) (by norm_num) (by norm_num) 30000⟩

end AdaptiveCount

/-! ## Vector algebra -/

section VectorAlgebra

variable {F : Type} [LinearOrderedField F]

theorem dot_comm (a b : Vec3 F) : dot a b = dot b a := by
  unfold dot
  ring

theorem dot_cross_left (a b : Vec3 F) : dot (cross a b) a = 0 := by
  simp only [dot, cross]
  ring

theorem dot_cross_right (a b : Vec3 F) : dot (cross a b) b = 0 := by
  simp only [dot, cross]
  ring

theorem dot_cross_self (a b : Vec3 F) :
    dot (cross a b) (cross a b) = dot a a * dot b b - dot a b * dot a b := by
  simp only [dot, cross]
  ring

theorem dot_mulScalar_left (a b : Vec3 F) (c : F) : dot (a.mulScalar c) b = c * dot a b := by
  simp only [dot, Vec3.mulScalar]
  ring

theorem dot_mulScalar_right (a b : Vec3 F) (c : F) : dot a (b.mulScalar c) = c * dot a b := by
  simp only [dot, Vec3.mulScalar]
  ring

theorem cross_mulScalar_right (a b : Vec3 F) (c : F) :
    cross a (b.mulScalar c) = (cross a b).mulScalar c := by
  simp only [cross, Vec3.mulScalar]
  ext <;> simp only <;> ring

theorem mulScalar_one (a : Vec3 F) : a.mulScalar 1 = a := by
  simp [Vec3.mulScalar]

theorem dot_self_eq_zero_iff (v : Vec3 F) : dot v v = 0 ↔ v = ⟨0, 0, 0⟩ := by
  constructor
  · intro h
    unfold dot at h
    have hx : v.x = 0 := by nlinarith [mul_self_nonneg v.x, mul_self_nonneg v.y, mul_self_nonneg v.z]
    have hy : v.y = 0 := by nlinarith [mul_self_nonneg v.x, mul_self_nonneg v.y, mul_self_nonneg v.z]
    have hz : v.z = 0 := by nlinarith [mul_self_nonneg v.x, mul_self_nonneg v.y, mul_self_nonneg v.z]
    ext <;> assumption
  · rintro rfl
    simp [dot]

theorem length_eq_one_iff {sqrt : F → F} (hs : IsSqrt sqrt) (v : Vec3 F) :
    length sqrt v = 1 ↔ dot v v = 1 := by
  unfold length
  constructor
  · intro h
    have := hs.mul_self (dot_self_nonneg v)
    rw [h] at this
    simpa using this.symm
  · intro h
    rw [h]
    exact hs.sqrt_one

theorem inversesqrt_mul_self {sqrt : F → F} (hs : IsSqrt sqrt) {x : F} (hx : 0 < x) :
    inversesqrt sqrt x * inversesqrt sqrt x * x = 1 := by
  have h1 := hs.mul_self hx.le
  have h2 := hs.ne_zero hx
  unfold inversesqrt
  field_simp
  exact h1.symm

theorem inversesqrt_ne_zero {sqrt : F → F} (hs : IsSqrt sqrt) {x : F} (hx : 0 < x) :
    inversesqrt sqrt x ≠ 0 := by
  unfold inversesqrt
  exact one_div_ne_zero (hs.ne_zero hx)

theorem dot_normalize_self {sqrt : F → F} (hs : IsSqrt sqrt) (v : Vec3 F) (hv : dot v v ≠ 0) :
    dot (normalize sqrt v) (normalize sqrt v) = 1 := by
  have hpos : 0 < dot v v := lt_of_le_of_ne (dot_self_nonneg v) (Ne.symm hv)
  unfold normalize
  rw [dot_mulScalar_left, dot_mulScalar_right, ← mul_assoc]
  exact inversesqrt_mul_self hs hpos

theorem normalize_of_dot_self_eq_one {sqrt : F → F} (hs : IsSqrt sqrt) (v : Vec3 F)
    (hv : dot v v = 1) : normalize sqrt v = v := by
  unfold normalize inversesqrt
  rw [hv, hs.sqrt_one]
  simp [mulScalar_one]

theorem normalize_zero (sqrt : F → F) : normalize sqrt (⟨0, 0, 0⟩ : Vec3 F) = ⟨0, 0, 0⟩ := by
  simp [normalize, Vec3.mulScalar]

end VectorAlgebra

/-! ## The integrator step (C7, C8) -/

section Integrator

variable {F : Type} [LinearOrderedField F]

theorem update_frenet_frame_of_nondegenerate {sqrt : F → F} (hs : IsSqrt sqrt)
    (tangent normal binormal curvature : Vec3 F) (ds : F)
    (hv : dot (tangent.add (Vec3.scale ds
            (((Vec3.scale curvature.x tangent).add (Vec3.scale curvature.y normal)).add
              (Vec3.scale curvature.z binormal))))
          (tangent.add (Vec3.scale ds
            (((Vec3.scale curvature.x tangent).add (Vec3.scale curvature.y normal)).add
              (Vec3.scale curvature.z binormal)))) ≠ 0)
    (hw : dot (cross binormal (tangent.add (Vec3.scale ds
            (((Vec3.scale curvature.x tangent).add (Vec3.scale curvature.y normal)).add
              (Vec3.scale curvature.z binormal)))))
          (cross binormal (tangent.add (Vec3.scale ds
            (((Vec3.scale curvature.x tangent).add (Vec3.scale curvature.y normal)).add
              (Vec3.scale curvature.z binormal))))) ≠ 0) :
    IsRightHandedOrthonormal sqrt
      (update_frenet_frame sqrt tangent normal binormal curvature ds).tangent
      (update_frenet_frame sqrt tangent normal binormal curvature ds).normal
      (update_frenet_frame sqrt tangent normal binormal curvature ds).binormal := by
  simp only [update_frenet_frame]
  generalize tangent.add (Vec3.scale ds
            (((Vec3.scale curvature.x tangent).add (Vec3.scale curvature.y normal)).add
              (Vec3.scale curvature.z binormal))) = v at hv hw
  have hvpos : 0 < dot v v := lt_of_le_of_ne (dot_self_nonneg v) (Ne.symm hv)
  have ht : dot (normalize sqrt v) (normalize sqrt v) = 1 := dot_normalize_self hs v hv
  have hw' : dot (cross binormal (normalize sqrt v)) (cross binormal (normalize sqrt v)) ≠ 0 := by
    unfold normalize
    rw [cross_mulScalar_right, dot_mulScalar_left, dot_mulScalar_right]
    have hne := inversesqrt_ne_zero hs hvpos
    exact mul_ne_zero hne (mul_ne_zero hne hw)
  generalize normalize sqrt v = t at ht hw'
  have hn : dot (normalize sqrt (cross binormal t)) (normalize sqrt (cross binormal t)) = 1 :=
    dot_normalize_self hs _ hw'
  have htn : dot t (normalize sqrt (cross binormal t)) = 0 := by
    unfold normalize
    rw [dot_mulScalar_right, dot_comm t, dot_cross_right, mul_zero]
  generalize normalize sqrt (cross binormal t) = n at hn htn
  have hb : dot (cross t n) (cross t n) = 1 := by
    rw [dot_cross_self, ht, hn, htn]
    ring
  rw [normalize_of_dot_self_eq_one hs _ hb]
  refine ⟨(length_eq_one_iff hs _).2 ht, (length_eq_one_iff hs _).2 hn,
    (length_eq_one_iff hs _).2 hb, htn, ?_, ?_, rfl⟩
  · rw [dot_comm, dot_cross_left]
  · rw [dot_comm, dot_cross_right]

theorem standard_frame_rightHanded {sqrt : F → F} (hs : IsSqrt sqrt) :
    IsRightHandedOrthonormal sqrt (⟨1, 0, 0⟩ : Vec3 F) ⟨0, 1, 0⟩ ⟨0, 0, 1⟩ := by
  refine ⟨?_, ?_, ?_, ?_, ?_, ?_, ?_⟩
  · simp [length, dot, hs.sqrt_one]
  · simp [length, dot, hs.sqrt_one]
  · simp [length, dot, hs.sqrt_one]
  · simp [dot]
  · simp [dot]
  · simp [dot]
  · simp [cross]

/-- C8: one pass through the body of the sampling loop of `compute_curve`
computes exactly the integrator step of the specification: the rotated
curvature, the renormalised tangent, the normal from the old binormal and the
new tangent, the binormal from the new tangent and normal, and the position
advanced along the tangent from before the update; the loop writes the current
position with weight `1` and continues from that state. -/
theorem C8_integrator_step (sqrt : F → F) (k : Vec3 F) (ds : F) (s : LocalState F)
    (point_index : Int) (remaining : Nat) (i : Int) :
    sample_step sqrt k ds s =
      spec_integrator_step sqrt k ds s.local_position s.local_tangent s.local_normal
        s.local_binormal ∧
    sample_loop sqrt point_index k ds (remaining + 1) i s =
      (point_index + i, Vec4.ofVec3 s.local_position 1) ::
        sample_loop sqrt point_index k ds remaining (i + 1)
          (spec_integrator_step sqrt k ds s.local_position s.local_tangent s.local_normal
            s.local_binormal) := by
  have h : sample_step sqrt k ds s =
      spec_integrator_step sqrt k ds s.local_position s.local_tangent s.local_normal
        s.local_binormal := by
    simp only [sample_step, update_frenet_frame, spec_integrator_step, Vec3.add, Vec3.scale]
  refine ⟨h, ?_⟩
  rw [← h, sample_loop]

/-- C7 as stated fails: from the standard right-handed orthonormal frame, with
curvature `(-1, 0, 0)` and step `ds = 1`, the updated tangent is the zero
vector, so the returned frame is not orthonormal. -/
theorem C7_counterexample :
    IsRightHandedOrthonormal Real.sqrt (⟨1, 0, 0⟩ : Vec3 ℝ) ⟨0, 1, 0⟩ ⟨0, 0, 1⟩ ∧
    (1 / 10000 : ℝ) ≤ 1 ∧ (1 : ℝ) ≤ 1 ∧
    (update_frenet_frame Real.sqrt (⟨1, 0, 0⟩ : Vec3 ℝ) ⟨0, 1, 0⟩ ⟨0, 0, 1⟩ ⟨-1, 0, 0⟩ 1).tangent
      = ⟨0, 0, 0⟩ ∧
    ¬ IsRightHandedOrthonormal Real.sqrt
      (update_frenet_frame Real.sqrt (⟨1, 0, 0⟩ : Vec3 ℝ) ⟨0, 1, 0⟩ ⟨0, 0, 1⟩ ⟨-1, 0, 0⟩ 1).tangent
      (update_frenet_frame Real.sqrt (⟨1, 0, 0⟩ : Vec3 ℝ) ⟨0, 1, 0⟩ ⟨0, 0, 1⟩ ⟨-1, 0, 0⟩ 1).normal
      (update_frenet_frame Real.sqrt (⟨1, 0, 0⟩ : Vec3 ℝ) ⟨0, 1, 0⟩ ⟨0, 0, 1⟩ ⟨-1, 0, 0⟩ 1).binormal := by
  have ht : (update_frenet_frame Real.sqrt (⟨1, 0, 0⟩ : Vec3 ℝ) ⟨0, 1, 0⟩ ⟨0, 0, 1⟩
      ⟨-1, 0, 0⟩ 1).tangent = ⟨0, 0, 0⟩ := by
    simp [update_frenet_frame, Vec3.add, Vec3.scale, normalize, Vec3.mulScalar]
  refine ⟨standard_frame_rightHanded real_isSqrt, by norm_num, le_refl _, ht, ?_⟩
  rintro ⟨h, -⟩
  rw [ht] at h
  simp [length, dot] at h

/-- C7 (amended): from a right-handed orthonormal frame, with a step size in
`[1e-4, 1]` and a curvature `(k_t, k_n, k_b)` that does not have both `k_n = 0`
and `1 + ds · k_t = 0`, the frame returned by `update_frenet_frame` is again
right-handed and orthonormal (in exact arithmetic). -/
theorem C7_frame_preserved (sqrt : F → F) (hs : IsSqrt sqrt)
    (tangent normal binormal curvature : Vec3 F) (ds : F)
    (hframe : IsRightHandedOrthonormal sqrt tangent normal binormal)
    (hlo : 1 / 10000 ≤ ds) (_hhi : ds ≤ 1)
    (hnd : ¬ (curvature.y = 0 ∧ 1 + ds * curvature.x = 0)) :
    IsRightHandedOrthonormal sqrt
      (update_frenet_frame sqrt tangent normal binormal curvature ds).tangent
      (update_frenet_frame sqrt tangent normal binormal curvature ds).normal
      (update_frenet_frame sqrt tangent normal binormal curvature ds).binormal := by
  obtain ⟨htt, hnn, hbb, htn, htb, hnb, -⟩ := hframe
  rw [length_eq_one_iff hs] at htt hnn hbb
  have hds : 0 < ds := lt_of_lt_of_le (by norm_num) hlo
  have hvv : dot (tangent.add (Vec3.scale ds
            (((Vec3.scale curvature.x tangent).add (Vec3.scale curvature.y normal)).add
              (Vec3.scale curvature.z binormal))))
          (tangent.add (Vec3.scale ds
            (((Vec3.scale curvature.x tangent).add (Vec3.scale curvature.y normal)).add
              (Vec3.scale curvature.z binormal)))) =
      (1 + ds * curvature.x) ^ 2 + (ds * curvature.y) ^ 2 + (ds * curvature.z) ^ 2 := by
    simp only [dot, Vec3.add, Vec3.scale] at *
    linear_combination (1 + ds * curvature.x) ^ 2 * htt + (ds * curvature.y) ^ 2 * hnn +
      (ds * curvature.z) ^ 2 * hbb + 2 * (1 + ds * curvature.x) * (ds * curvature.y) * htn +
      2 * (1 + ds * curvature.x) * (ds * curvature.z) * htb +
      2 * (ds * curvature.y) * (ds * curvature.z) * hnb
  have hbv : dot binormal (tangent.add (Vec3.scale ds
            (((Vec3.scale curvature.x tangent).add (Vec3.scale curvature.y normal)).add
              (Vec3.scale curvature.z binormal)))) = ds * curvature.z := by
    simp only [dot, Vec3.add, Vec3.scale] at *
    linear_combination (1 + ds * curvature.x) * htb + (ds * curvature.y) * hnb +
      (ds * curvature.z) * hbb
  have hpos : 0 < (1 + ds * curvature.x) ^ 2 + (ds * curvature.y) ^ 2 := by
    by_cases hy : curvature.y = 0
    · have hx : 1 + ds * curvature.x ≠ 0 := fun h => hnd ⟨hy, h⟩
      have := pow_pos (abs_pos.mpr hx) 2
      rw [sq_abs] at this
      nlinarith [sq_nonneg (ds * curvature.y)]
    · have : ds * curvature.y ≠ 0 := mul_ne_zero (ne_of_gt hds) hy
      have := pow_pos (abs_pos.mpr this) 2
      rw [sq_abs] at this
      nlinarith [sq_nonneg (1 + ds * curvature.x)]
  apply update_frenet_frame_of_nondegenerate hs
  · rw [hvv]
    nlinarith [sq_nonneg (ds * curvature.z)]
  · rw [dot_cross_self, hbb, hvv, hbv]
    intro h
    nlinarith

/-- Witness of the amended C7: the standard frame, the curvature
`(1/10, 1/5, 3/10)` of the demo program and the step `1/100`. -/
theorem C7_frame_preserved_witness :
    IsSqrt Real.sqrt ∧
    IsRightHandedOrthonormal Real.sqrt (⟨1, 0, 0⟩ : Vec3 ℝ) ⟨0, 1, 0⟩ ⟨0, 0, 1⟩ ∧
    (1 / 10000 : ℝ) ≤ 1 / 100 ∧ (1 / 100 : ℝ) ≤ 1 ∧
    IsRightHandedOrthonormal Real.sqrt
      (update_frenet_frame Real.sqrt (⟨1, 0, 0⟩ : Vec3 ℝ) ⟨0, 1, 0⟩ ⟨0, 0, 1⟩
        ⟨1 / 10, 1 / 5, 3 / 10⟩ (1 / 100)).tangent
      (update_frenet_frame Real.sqrt (⟨1, 0, 0⟩ : Vec3 ℝ) ⟨0, 1, 0⟩ ⟨0, 0, 1⟩
        ⟨1 / 10, 1 / 5, 3 / 10⟩ (1 / 100)).normal
      (update_frenet_frame Real.sqrt (⟨1, 0, 0⟩ : Vec3 ℝ) ⟨0, 1, 0⟩ ⟨0, 0, 1⟩
        ⟨1 / 10, 1 / 5, 3 / 10⟩ (1 / 100)).binormal :=
  ⟨real_isSqrt, standard_frame_rightHanded real_isSqrt, by norm_num, by norm_num,
    C7_frame_preserved Real.sqrt real_isSqrt ⟨1, 0, 0⟩ ⟨0, 1, 0⟩ ⟨0, 0, 1⟩
      ⟨1 / 10, 1 / 5, 3 / 10⟩ (1 / 100) (standard_frame_rightHanded real_isSqrt)
      (by norm_num) (by norm_num) (by norm_num)⟩

end Integrator

/-! ## The seed frame (C6) -/

section SeedFrame

variable {F : Type} [LinearOrderedField F]

theorem normalize_x_axis {sqrt : F → F} (hs : IsSqrt sqrt) :
    normalize sqrt (⟨1, 0, 0⟩ : Vec3 F) = ⟨1, 0, 0⟩ :=
  normalize_of_dot_self_eq_one hs _ (by simp [dot])

theorem initialize_frame_x_axis {sqrt : F → F} (hs : IsSqrt sqrt) :
    initialize_frame sqrt (⟨1, 0, 0⟩ : Vec3 F) = (⟨0, -1, 0⟩, ⟨0, 0, 1⟩) := by
  have h1 : ¬ ((99 : F) / 100 ≤ 0) := by norm_num
  have h2 : cross (⟨1, 0, 0⟩ : Vec3 F) ⟨0, 0, 1⟩ = ⟨0, -1, 0⟩ := by simp [cross]
  have h3 : cross (⟨0, -1, 0⟩ : Vec3 F) ⟨1, 0, 0⟩ = ⟨0, 0, 1⟩ := by simp [cross]
  have h4 : normalize sqrt (⟨0, -1, 0⟩ : Vec3 F) = ⟨0, -1, 0⟩ :=
    normalize_of_dot_self_eq_one hs _ (by simp [dot])
  have h5 : normalize sqrt (⟨0, 0, 1⟩ : Vec3 F) = ⟨0, 0, 1⟩ :=
    normalize_of_dot_self_eq_one hs _ (by simp [dot])
  simp only [initialize_frame, dot, mul_zero, zero_mul, add_zero, ge_iff_le, h1, if_false, h2,
    h3, h4, h5]

theorem initialize_frame_neg_z_axis {sqrt : F → F} (hs : IsSqrt sqrt) :
    normalize sqrt (⟨0, 0, -1⟩ : Vec3 F) = ⟨0, 0, -1⟩ ∧
    initialize_frame sqrt (⟨0, 0, -1⟩ : Vec3 F) = (⟨0, 0, 0⟩, ⟨0, 0, 0⟩) := by
  have h1 : ¬ ((99 : F) / 100 ≤ -1) := by norm_num
  have h2 : cross (⟨0, 0, -1⟩ : Vec3 F) ⟨0, 0, 1⟩ = ⟨0, 0, 0⟩ := by simp [cross]
  have h3 : cross (⟨0, 0, 0⟩ : Vec3 F) ⟨0, 0, -1⟩ = ⟨0, 0, 0⟩ := by simp [cross]
  refine ⟨normalize_of_dot_self_eq_one hs _ (by simp [dot]), ?_⟩
  simp only [initialize_frame, dot, mul_zero, zero_mul, add_zero, zero_add, mul_one, ge_iff_le,
    h1, if_false, h2, h3, normalize_zero]

/-- C6 (evaluation at two failing inputs): for the start direction `(1, 0, 0)`
the seed frame is `((1,0,0), (0,-1,0), (0,0,1))`, for which
`cross(tangent, normal) = (0,0,-1)` is the opposite of the binormal; for the
start direction `(0, 0, -1)` the normal and the binormal degenerate (the zero
vector of the model).  Neither seed frame is right-handed orthonormal. -/
theorem C6_seed_frame_not_right_handed :
    (normalize Real.sqrt (⟨1, 0, 0⟩ : Vec3 ℝ) = ⟨1, 0, 0⟩ ∧
      initialize_frame Real.sqrt (⟨1, 0, 0⟩ : Vec3 ℝ) = (⟨0, -1, 0⟩, ⟨0, 0, 1⟩) ∧
      cross (⟨1, 0, 0⟩ : Vec3 ℝ) ⟨0, -1, 0⟩ = ⟨0, 0, -1⟩ ∧
      ¬ IsRightHandedOrthonormal Real.sqrt (normalize Real.sqrt (⟨1, 0, 0⟩ : Vec3 ℝ))
          (initialize_frame Real.sqrt (normalize Real.sqrt (⟨1, 0, 0⟩ : Vec3 ℝ))).1
          (initialize_frame Real.sqrt (normalize Real.sqrt (⟨1, 0, 0⟩ : Vec3 ℝ))).2) ∧
    (normalize Real.sqrt (⟨0, 0, -1⟩ : Vec3 ℝ) = ⟨0, 0, -1⟩ ∧
      initialize_frame Real.sqrt (⟨0, 0, -1⟩ : Vec3 ℝ) = (⟨0, 0, 0⟩, ⟨0, 0, 0⟩) ∧
      ¬ IsRightHandedOrthonormal Real.sqrt (normalize Real.sqrt (⟨0, 0, -1⟩ : Vec3 ℝ))
          (initialize_frame Real.sqrt (normalize Real.sqrt (⟨0, 0, -1⟩ : Vec3 ℝ))).1
          (initialize_frame Real.sqrt (normalize Real.sqrt (⟨0, 0, -1⟩ : Vec3 ℝ))).2) := by
  have hx := normalize_x_axis real_isSqrt
  have hfx := initialize_frame_x_axis real_isSqrt
  obtain ⟨hz, hfz⟩ := initialize_frame_neg_z_axis real_isSqrt
  refine ⟨⟨hx, hfx, by simp [cross], ?_⟩, hz, hfz, ?_⟩
  · rw [hx, hfx]
    rintro ⟨-, -, -, -, -, -, h⟩
    have := congrArg Vec3.z h
    simp [cross] at this
    norm_num at this
  · rw [hz, hfz]
    rintro ⟨-, h, -⟩
    simp [length, dot] at h

theorem initialize_frame_normal_orthogonal (sqrt : F → F) (t : Vec3 F) :
    dot (initialize_frame sqrt t).1 t = 0 := by
  simp only [initialize_frame]
  split_ifs
  · unfold normalize
    rw [dot_mulScalar_left, dot_cross_left, mul_zero]
  · unfold normalize
    rw [dot_mulScalar_left, dot_cross_left, mul_zero]

theorem cross_cross_of_orthonormal (n t : Vec3 F) (hnt : dot n t = 0) (htt : dot t t = 1) :
    cross (cross n t) t = n.neg := by
  simp only [dot] at hnt htt
  simp only [cross, Vec3.neg]
  ext
  · simp only
    linear_combination t.x * hnt - n.x * htt
  · simp only
    linear_combination t.y * hnt - n.y * htt
  · simp only
    linear_combination t.z * hnt - n.z * htt

theorem cross_neg_right (t n : Vec3 F) : cross t n.neg = cross n t := by
  simp only [cross, Vec3.neg]
  ext <;> simp only <;> ring

theorem dot_neg_neg (n : Vec3 F) : dot n.neg n.neg = dot n n := by
  simp only [dot, Vec3.neg]
  ring

theorem update_frenet_frame_zero_curvature {sqrt : F → F} (hs : IsSqrt sqrt)
    (t n normal : Vec3 F) (ds : F) (htt : dot t t = 1) (hnn : dot n n = 1) (hnt : dot n t = 0) :
    update_frenet_frame sqrt t normal (cross n t) (Vec3.splat 0) ds = ⟨t, n.neg, cross n t⟩ := by
  have h0 : t.add (Vec3.scale ds
      (((Vec3.scale (Vec3.splat (0 : F)).x t).add (Vec3.scale (Vec3.splat (0 : F)).y normal)).add
        (Vec3.scale (Vec3.splat (0 : F)).z (cross n t)))) = t := by
    simp [Vec3.add, Vec3.scale, Vec3.splat]
  have h1 : normalize sqrt t = t := normalize_of_dot_self_eq_one hs t htt
  have h2 : normalize sqrt n.neg = n.neg :=
    normalize_of_dot_self_eq_one hs _ (by rw [dot_neg_neg, hnn])
  have h3 : dot (cross n t) (cross n t) = 1 := by
    rw [dot_cross_self, hnn, htt, hnt]
    ring
  have h4 : normalize sqrt (cross n t) = cross n t := normalize_of_dot_self_eq_one hs _ h3
  simp only [update_frenet_frame, h0, h1, cross_cross_of_orthonormal n t hnt htt, h2,
    cross_neg_right, h4]

/-- C17: for a unit tangent `t` whose seed frame `(t, n, b)` from
`initialize_frame` is non-degenerate (the normal has unit length), the seed
binormal is `cross(n, t)`; one zero-curvature call of `update_frenet_frame`
with any `ds` returns `(t, -n, b)`, a second one returns `(t, -n, b)` again,
and `(t, -n, b)` differs from the seed frame. -/
theorem C17_first_step_negates_normal (sqrt : F → F) (hs : IsSqrt sqrt) (t : Vec3 F) (ds : F)
    (ht : length sqrt t = 1) (hn : length sqrt (initialize_frame sqrt t).1 = 1) :
    (initialize_frame sqrt t).2 = cross (initialize_frame sqrt t).1 t ∧
    update_frenet_frame sqrt t (initialize_frame sqrt t).1 (initialize_frame sqrt t).2
        (Vec3.splat 0) ds =
      ⟨t, (initialize_frame sqrt t).1.neg, (initialize_frame sqrt t).2⟩ ∧
    update_frenet_frame sqrt t (initialize_frame sqrt t).1.neg (initialize_frame sqrt t).2
        (Vec3.splat 0) ds =
      ⟨t, (initialize_frame sqrt t).1.neg, (initialize_frame sqrt t).2⟩ ∧
    (⟨t, (initialize_frame sqrt t).1.neg, (initialize_frame sqrt t).2⟩ : Frame F) ≠
      ⟨t, (initialize_frame sqrt t).1, (initialize_frame sqrt t).2⟩ := by
  have htt : dot t t = 1 := (length_eq_one_iff hs t).1 ht
  have hnn : dot (initialize_frame sqrt t).1 (initialize_frame sqrt t).1 = 1 :=
    (length_eq_one_iff hs _).1 hn
  have hnt := initialize_frame_normal_orthogonal sqrt t
  have hb : (initialize_frame sqrt t).2 = cross (initialize_frame sqrt t).1 t := by
    have h3 : dot (cross (initialize_frame sqrt t).1 t) (cross (initialize_frame sqrt t).1 t) =
        1 := by
      rw [dot_cross_self, hnn, htt, hnt]
      ring
    have h4 := normalize_of_dot_self_eq_one hs _ h3
    simpa only [initialize_frame] using h4
  refine ⟨hb, ?_, ?_, ?_⟩
  · rw [hb]
    exact update_frenet_frame_zero_curvature hs t _ _ ds htt hnn hnt
  · rw [hb]
    exact update_frenet_frame_zero_curvature hs t _ _ ds htt hnn hnt
  · intro h
    have hneg : (initialize_frame sqrt t).1.neg = (initialize_frame sqrt t).1 :=
      (Frame.mk.injEq _ _ _ _ _ _ ▸ h).2.1
    have hx := congrArg Vec3.x hneg
    have hy := congrArg Vec3.y hneg
    have hz := congrArg Vec3.z hneg
    simp only [Vec3.neg] at hx hy hz
    simp only [dot] at hnn
    have hx0 : (initialize_frame sqrt t).1.x = 0 := by linarith
    have hy0 : (initialize_frame sqrt t).1.y = 0 := by linarith
    have hz0 : (initialize_frame sqrt t).1.z = 0 := by linarith
    rw [hx0, hy0, hz0] at hnn
    norm_num at hnn

/-- Witness of C17: the tangent `(1,0,0)` of the demo program, whose seed
frame has the unit normal `(0,-1,0)`, with step `1/100`. -/
theorem C17_first_step_negates_normal_witness :
    IsSqrt Real.sqrt ∧ length Real.sqrt (⟨1, 0, 0⟩ : Vec3 ℝ) = 1 ∧
    length Real.sqrt (initialize_frame Real.sqrt (⟨1, 0, 0⟩ : Vec3 ℝ)).1 = 1 ∧
    update_frenet_frame Real.sqrt (⟨1, 0, 0⟩ : Vec3 ℝ)
        (initialize_frame Real.sqrt (⟨1, 0, 0⟩ : Vec3 ℝ)).1
        (initialize_frame Real.sqrt (⟨1, 0, 0⟩ : Vec3 ℝ)).2 (Vec3.splat 0) (1 / 100) =
      ⟨⟨1, 0, 0⟩, (initialize_frame Real.sqrt (⟨1, 0, 0⟩ : Vec3 ℝ)).1.neg,
        (initialize_frame Real.sqrt (⟨1, 0, 0⟩ : Vec3 ℝ)).2⟩ :=
  have h1 : length Real.sqrt (⟨1, 0, 0⟩ : Vec3 ℝ) = 1 :=
    length_x_axis real_isSqrt zero_le_one
  have h2 : length Real.sqrt (initialize_frame Real.sqrt (⟨1, 0, 0⟩ : Vec3 ℝ)).1 = 1 := by
    rw [initialize_frame_x_axis real_isSqrt]
    simp [length, dot]
  ⟨real_isSqrt, h1, h2,
    (C17_first_step_negates_normal Real.sqrt real_isSqrt ⟨1, 0, 0⟩ (1 / 100) h1 h2).2.1⟩

end SeedFrame

/-! ## The sampling loops of `compute_curve` (C1, C2, C3, C9, C10) -/

section BufferWrites

variable {F : Type}

theorem write_point_length {points points' : List (Vec4 F)} {k : Int} {v : Vec4 F}
    (h : write_point points k v = some points') : points'.length = points.length := by
  unfold write_point at h
  split_ifs at h
  simp only [Option.some.injEq] at h
  rw [← h, List.length_set]

theorem write_points_out_of_range (points : List (Vec4 F)) (writes : List (Int × Vec4 F))
    (h : ∃ w ∈ writes, (points.length : Int) ≤ w.1) : write_points points writes = none := by
  induction writes generalizing points with
  | nil => simp at h
  | cons w rest ih =>
    obtain ⟨k, v⟩ := w
    simp only [write_points]
    cases hw : write_point points k v with
    | none => rfl
    | some points' =>
      simp only [Option.some_bind]
      apply ih
      rw [write_point_length hw]
      obtain ⟨w, hmem, hle⟩ := h
      rcases List.mem_cons.mp hmem with rfl | hmem
      · exfalso
        unfold write_point at hw
        split_ifs at hw with hr
        exact absurd hle (not_le.mpr hr.2)
      · exact ⟨w, hmem, hle⟩

end BufferWrites

section Sampling

variable {F : Type} [LinearOrderedField F]

theorem sample_loop_length (sqrt : F → F) (point_index : Int) (curvature : Vec3 F) (ds : F)
    (remaining : Nat) (i : Int) (s : LocalState F) :
    (sample_loop sqrt point_index curvature ds remaining i s).length = remaining := by
  induction remaining generalizing i s with
  | zero => rfl
  | succ n ih => simp [sample_loop, ih]

theorem sample_loop_indices (sqrt : F → F) (point_index : Int) (curvature : Vec3 F) (ds : F)
    (remaining : Nat) (i : Int) (s : LocalState F) :
    (sample_loop sqrt point_index curvature ds remaining i s).map Prod.fst =
      (List.range remaining).map fun j : Nat => point_index + i + (j : Int) := by
  induction remaining generalizing i s with
  | zero => rfl
  | succ n ih =>
    rw [sample_loop, List.map_cons, ih, List.range_succ_eq_map, List.map_cons, List.map_map]
    congr 1
    · simp
    · apply List.map_congr_left
      intro j _
      simp only [Function.comp_apply, Nat.succ_eq_add_one, Nat.cast_add, Nat.cast_one]
      ring

theorem sample_loop_weight (sqrt : F → F) (point_index : Int) (curvature : Vec3 F) (ds : F)
    (remaining : Nat) (i : Int) (s : LocalState F) :
    ∀ w ∈ sample_loop sqrt point_index curvature ds remaining i s, w.2.w = 1 := by
  induction remaining generalizing i s with
  | zero => simp [sample_loop]
  | succ n ih =>
    intro w hw
    rw [sample_loop, List.mem_cons] at hw
    rcases hw with rfl | hw
    · rfl
    · exact ih _ _ w hw

theorem sample_loop_getElem? (sqrt : F → F) (point_index : Int) (curvature : Vec3 F) (ds : F)
    (remaining : Nat) (i : Int) (s : LocalState F) (j : Nat) (hj : j < remaining) :
    (sample_loop sqrt point_index curvature ds remaining i s)[j]? =
      some (point_index + i + (j : Int),
        Vec4.ofVec3 ((sample_step sqrt curvature ds)^[j] s).local_position 1) := by
  induction remaining generalizing i s j with
  | zero => omega
  | succ n ih =>
    cases j with
    | zero => simp [sample_loop]
    | succ j =>
      rw [sample_loop, List.getElem?_cons_succ, ih _ _ j (by omega), Function.iterate_succ_apply]
      simp only [Nat.cast_add, Nat.cast_one]
      congr 2
      ring

theorem update_frenet_frame_straight {sqrt : F → F} (hs : IsSqrt sqrt) (normal : Vec3 F) (ds : F) :
    update_frenet_frame sqrt (⟨1, 0, 0⟩ : Vec3 F) normal ⟨0, 0, 1⟩ (Vec3.splat 0) ds =
      ⟨⟨1, 0, 0⟩, ⟨0, 1, 0⟩, ⟨0, 0, 1⟩⟩ := by
  have h1 : normalize sqrt (⟨1, 0, 0⟩ : Vec3 F) = ⟨1, 0, 0⟩ := normalize_x_axis hs
  have h2 : normalize sqrt (⟨0, 1, 0⟩ : Vec3 F) = ⟨0, 1, 0⟩ :=
    normalize_of_dot_self_eq_one hs _ (by simp [dot])
  have h3 : normalize sqrt (⟨0, 0, 1⟩ : Vec3 F) = ⟨0, 0, 1⟩ :=
    normalize_of_dot_self_eq_one hs _ (by simp [dot])
  simp [update_frenet_frame, Vec3.add, Vec3.scale, Vec3.splat, cross, h1, h2, h3]

variable [FloorRing F]

theorem dynamic_interpolation_points_linear {sqrt : F → F} (hs : IsSqrt sqrt) {B : Int}
    (hB : 0 ≤ B) :
    dynamic_interpolation_points B (length sqrt (Vec3.splat (0 : F))) = B := by
  rw [length_splat_zero hs]
  simp [dynamic_interpolation_points, to_int, hB]

theorem dynamic_interpolation_points_nonpos {sqrt : F → F} (hs : IsSqrt sqrt) {B : Int}
    (hB : B ≤ 0) (curvature : Vec3 F) :
    dynamic_interpolation_points B (length sqrt curvature) ≤ 0 := by
  unfold dynamic_interpolation_points
  have hBF : (B : F) ≤ 0 := by exact_mod_cast hB
  exact max_le hB (to_int_nonpos (mul_nonpos_of_nonpos_of_nonneg hBF (length_nonneg hs _)))

theorem compute_curve_two_linear {sqrt : F → F} (hs : IsSqrt sqrt) :
    compute_curve sqrt (example_tube : Tube F) [LinearSegment 1, LinearSegment 1] 2 =
      [(0, ⟨0, 0, 0, 1⟩), (1, ⟨1 / 2, 0, 0, 1⟩), (2, ⟨0, 0, 0, 1⟩), (3, ⟨1 / 2, 0, 0, 1⟩)] := by
  have hN : dynamic_interpolation_points 2 (length sqrt (Vec3.splat (0 : F))) = 2 :=
    dynamic_interpolation_points_linear hs (by decide)
  simp [compute_curve, example_tube, segment_loop, LinearSegment, hN, normalize_x_axis hs,
    initialize_frame_x_axis hs, sample_loop, sample_step, Vec4.ofVec3, Vec3.add, Vec3.scale]

theorem segment_loop_length (sqrt : F → F) (B : Int) (position tangent normal binormal : Vec3 F)
    (segment_data : List (Segment F)) (point_index : Int) :
    (segment_loop sqrt B position tangent normal binormal segment_data point_index).length =
      (segment_data.map fun segment =>
        (dynamic_interpolation_points B (length sqrt segment.curvature)).toNat).sum := by
  induction segment_data generalizing point_index with
  | nil => rfl
  | cons segment rest ih => simp [segment_loop, sample_loop_length, ih]

theorem segment_loop_of_nonpos {sqrt : F → F} (hs : IsSqrt sqrt) {B : Int} (hB : B ≤ 0)
    (position tangent normal binormal : Vec3 F) (segment_data : List (Segment F))
    (point_index : Int) :
    segment_loop sqrt B position tangent normal binormal segment_data point_index = [] := by
  induction segment_data generalizing point_index with
  | nil => rfl
  | cons segment rest ih =>
    have h := dynamic_interpolation_points_nonpos hs hB segment.curvature
    simp [segment_loop, ih, Int.toNat_of_nonpos h, sample_loop]

theorem segment_loop_second_segment_start (sqrt : F → F) {B : Int} (hB : 0 < B)
    (position tangent normal binormal : Vec3 F) (first second : Segment F)
    (rest : List (Segment F)) (point_index : Int) :
    (point_index + dynamic_interpolation_points B (length sqrt first.curvature),
        Vec4.ofVec3 position 1) ∈
      segment_loop sqrt B position tangent normal binormal (first :: second :: rest)
        point_index := by
  have h2 : 0 < dynamic_interpolation_points B (length sqrt second.curvature) :=
    lt_of_lt_of_le hB (le_max_left _ _)
  obtain ⟨n, hn⟩ : ∃ n : Nat,
      (dynamic_interpolation_points B (length sqrt second.curvature)).toNat = n + 1 :=
    Nat.exists_eq_succ_of_ne_zero (by omega)
  simp only [segment_loop, hn, sample_loop, add_zero]
  simp

theorem segment_loop_append (sqrt : F → F) (B : Int) (position tangent normal binormal : Vec3 F)
    (pre post : List (Segment F)) (point_index : Int) :
    segment_loop sqrt B position tangent normal binormal (pre ++ post) point_index =
      segment_loop sqrt B position tangent normal binormal pre point_index ++
        segment_loop sqrt B position tangent normal binormal post
          (point_index +
            (pre.map fun segment =>
              dynamic_interpolation_points B (length sqrt segment.curvature)).sum) := by
  induction pre generalizing point_index with
  | nil => simp [segment_loop]
  | cons segment rest ih =>
    rw [List.cons_append]
    simp only [segment_loop]
    rw [ih]
    simp only [List.append_assoc, List.map_cons, List.sum_cons, add_assoc]

theorem segment_loop_weight (sqrt : F → F) (B : Int) (position tangent normal binormal : Vec3 F)
    (segment_data : List (Segment F)) (point_index : Int) :
    ∀ w ∈ segment_loop sqrt B position tangent normal binormal segment_data point_index,
      w.2.w = 1 := by
  induction segment_data generalizing point_index with
  | nil => simp [segment_loop]
  | cons segment rest ih =>
    intro w hw
    simp only [segment_loop, List.mem_append] at hw
    rcases hw with hw | hw
    · exact sample_loop_weight _ _ _ _ _ _ _ w hw
    · exact ih _ w hw

theorem sum_counts_toNat {sqrt : F → F} {B : Int} (hB : 0 < B) (segment_data : List (Segment F)) :
    (((segment_data.map fun segment =>
        (dynamic_interpolation_points B (length sqrt segment.curvature)).toNat).sum : Nat) : Int) =
      (segment_data.map fun segment =>
        dynamic_interpolation_points B (length sqrt segment.curvature)).sum := by
  induction segment_data with
  | nil => rfl
  | cons segment rest ih =>
    have h : 0 ≤ dynamic_interpolation_points B (length sqrt segment.curvature) :=
      le_trans hB.le (le_max_left _ _)
    simp only [List.map_cons, List.sum_cons, Nat.cast_add, ih, Int.toNat_of_nonneg h]

theorem segment_loop_indices {sqrt : F → F} (hs : IsSqrt sqrt) (B : Int)
    (position tangent normal binormal : Vec3 F) (segment_data : List (Segment F))
    (point_index : Int) :
    (segment_loop sqrt B position tangent normal binormal segment_data point_index).map Prod.fst =
      (List.range
        (segment_loop sqrt B position tangent normal binormal segment_data
          point_index).length).map fun j : Nat => point_index + (j : Int) := by
  rcases le_or_lt B 0 with hB | hB
  · rw [segment_loop_of_nonpos hs hB]
    rfl
  · induction segment_data generalizing point_index with
    | nil => rfl
    | cons segment rest ih =>
      have h : 0 ≤ dynamic_interpolation_points B (length sqrt segment.curvature) :=
        le_trans hB.le (le_max_left _ _)
      simp only [segment_loop, List.map_append, List.length_append, sample_loop_length,
        sample_loop_indices, ih, List.range_add, List.map_map, add_zero]
      congr 1
      apply List.map_congr_left
      intro j _
      simp only [Function.comp_apply, Nat.cast_add, Int.toNat_of_nonneg h]
      ring

end Sampling

/-! ## Agreement of the NaN-propagating definitions with the exact ones -/

section Agreement

variable {F : Type}

theorem AgreesWith.some {α : Type} (v : α) : AgreesWith (some v) v := by
  intro x hx
  exact (Option.some.inj hx).symm

theorem AgreesWith.none {α : Type} (v : α) : AgreesWith (none : Option α) v := by
  intro x hx
  cases hx

theorem AgreesWith.map {α β : Type} {o : Option α} {v : α} (h : AgreesWith o v) (g : α → β) :
    AgreesWith (o.map g) (g v) := by
  cases o with
  | none => exact AgreesWith.none _
  | some a =>
    rw [h a rfl]
    exact AgreesWith.some _

theorem AgreesWith.lift2 {a b : Option (Vec3 F)} {va vb : Vec3 F} (ha : AgreesWith a va)
    (hb : AgreesWith b vb) (f : Vec3 F → Vec3 F → Vec3 F) :
    AgreesWith (nan_lift2 f a b) (f va vb) := by
  cases a with
  | none => exact AgreesWith.none _
  | some x =>
    cases b with
    | none => exact AgreesWith.none _
    | some y =>
      rw [ha x rfl, hb y rfl]
      exact AgreesWith.some _

variable [LinearOrderedField F]

theorem AgreesWith.normalize {o : Option (Vec3 F)} {v : Vec3 F} (h : AgreesWith o v)
    (sqrt : F → F) : AgreesWith (normalize_nan sqrt o) (normalize sqrt v) := by
  cases o with
  | none => exact AgreesWith.none _
  | some x =>
    rw [h x rfl]
    simp only [normalize_nan, Option.some_bind]
    split_ifs
    · exact AgreesWith.none _
    · exact AgreesWith.some _

theorem initialize_frame_nan_agrees (sqrt : F → F) {o : Option (Vec3 F)} {t : Vec3 F}
    (h : AgreesWith o t) :
    AgreesWith (initialize_frame_nan sqrt o).1 (initialize_frame sqrt t).1 ∧
    AgreesWith (initialize_frame_nan sqrt o).2 (initialize_frame sqrt t).2 := by
  have h1 : AgreesWith (initialize_frame_nan sqrt o).1 (initialize_frame sqrt t).1 := by
    cases o with
    | none => exact AgreesWith.none _
    | some x =>
      rw [h x rfl]
      simp only [initialize_frame_nan, initialize_frame]
      split_ifs
      · exact (AgreesWith.some _).normalize sqrt
      · exact (AgreesWith.some _).normalize sqrt
  exact ⟨h1, ((h1.lift2 h cross).normalize sqrt)⟩

theorem update_frenet_frame_nan_agrees (sqrt : F → F) {otan onor obin : Option (Vec3 F)}
    {t n b : Vec3 F} (ht : AgreesWith otan t) (hn : AgreesWith onor n) (hb : AgreesWith obin b)
    (curvature : Vec3 F) (ds : F) :
    AgreesWith (update_frenet_frame_nan sqrt otan onor obin curvature ds).1
        (update_frenet_frame sqrt t n b curvature ds).tangent ∧
    AgreesWith (update_frenet_frame_nan sqrt otan onor obin curvature ds).2.1
        (update_frenet_frame sqrt t n b curvature ds).normal ∧
    AgreesWith (update_frenet_frame_nan sqrt otan onor obin curvature ds).2.2
        (update_frenet_frame sqrt t n b curvature ds).binormal := by
  have hr := ((ht.map (Vec3.scale curvature.x)).lift2 (hn.map (Vec3.scale curvature.y))
    Vec3.add).lift2 (hb.map (Vec3.scale curvature.z)) Vec3.add
  have h1 := (ht.lift2 (hr.map (Vec3.scale ds)) Vec3.add).normalize sqrt
  have h2 := (hb.lift2 h1 cross).normalize sqrt
  have h3 := (h1.lift2 h2 cross).normalize sqrt
  exact ⟨h1, h2, h3⟩

/-- The possibly-NaN local state agrees, variable by variable, with the exact
one. -/
theorem sample_loop_nan_agrees (sqrt : F → F) (point_index : Int) (curvature : Vec3 F) (ds : F)
    (remaining : Nat) (i : Int) (sn : LocalStateNan F) (s : LocalState F)
    (hp : AgreesWith sn.local_position s.local_position)
    (ht : AgreesWith sn.local_tangent s.local_tangent)
    (hn : AgreesWith sn.local_normal s.local_normal)
    (hb : AgreesWith sn.local_binormal s.local_binormal) :
    List.Forall₂ (fun a b => a.1 = b.1 ∧ AgreesWith a.2 b.2)
      (sample_loop_nan sqrt point_index curvature ds remaining i sn)
      (sample_loop sqrt point_index curvature ds remaining i s) := by
  induction remaining generalizing i sn s with
  | zero => exact List.Forall₂.nil
  | succ k ih =>
    rw [sample_loop_nan, sample_loop]
    refine List.Forall₂.cons ⟨rfl, hp.map _⟩ (ih _ _ _ ?_ ?_ ?_ ?_)
    · exact hp.lift2 (ht.map (Vec3.scale ds)) Vec3.add
    · exact (update_frenet_frame_nan_agrees sqrt ht hn hb curvature ds).1
    · exact (update_frenet_frame_nan_agrees sqrt ht hn hb curvature ds).2.1
    · exact (update_frenet_frame_nan_agrees sqrt ht hn hb curvature ds).2.2

variable [FloorRing F]

theorem compute_curve_nan_agrees (sqrt : F → F) (tube : Tube F) (segment_data : List (Segment F))
    (B : Int) :
    List.Forall₂ (fun a b => a.1 = b.1 ∧ AgreesWith a.2 b.2)
      (compute_curve_nan sqrt tube segment_data B) (compute_curve sqrt tube segment_data B) := by
  have ht := (AgreesWith.some tube.start_direction).normalize sqrt
  have hf := initialize_frame_nan_agrees sqrt ht
  simp only [compute_curve_nan, compute_curve]
  generalize (0 : Int) = point_index
  induction segment_data generalizing point_index with
  | nil => exact List.Forall₂.nil
  | cons segment rest ih =>
    simp only [segment_loop_nan, segment_loop]
    exact List.rel_append
      (sample_loop_nan_agrees sqrt _ _ _ _ _ _ _ (AgreesWith.some _) ht hf.1 hf.2) (ih _)

end Agreement

/-! ## Straight tubes with NaN propagation (C16) -/

section StraightNan

variable {F : Type} [LinearOrderedField F]

theorem normalize_nan_of_dot_self_eq_one {sqrt : F → F} (hs : IsSqrt sqrt) (v : Vec3 F)
    (hv : dot v v = 1) : normalize_nan sqrt (some v) = some v := by
  simp only [normalize_nan, Option.some_bind, hv, one_ne_zero, if_false,
    normalize_of_dot_self_eq_one hs v hv]

theorem update_frenet_frame_nan_zero_curvature {sqrt : F → F} (hs : IsSqrt sqrt)
    (t n normal : Vec3 F) (ds : F) (htt : dot t t = 1) (hnn : dot n n = 1) (hnt : dot n t = 0) :
    update_frenet_frame_nan sqrt (some t) (some normal) (some (cross n t)) (Vec3.splat 0) ds =
      (some t, some n.neg, some (cross n t)) := by
  have h0 : t.add (Vec3.scale ds
      (((Vec3.scale (Vec3.splat (0 : F)).x t).add (Vec3.scale (Vec3.splat (0 : F)).y normal)).add
        (Vec3.scale (Vec3.splat (0 : F)).z (cross n t)))) = t := by
    simp [Vec3.add, Vec3.scale, Vec3.splat]
  have h1 := normalize_nan_of_dot_self_eq_one hs t htt
  have h2 := normalize_nan_of_dot_self_eq_one hs n.neg (by rw [dot_neg_neg, hnn])
  have h3 : dot (cross n t) (cross n t) = 1 := by
    rw [dot_cross_self, hnn, htt, hnt]
    ring
  have h4 := normalize_nan_of_dot_self_eq_one hs _ h3
  simp only [update_frenet_frame_nan, nan_lift2, Option.map_some', Option.some_bind, h0, h1,
    cross_cross_of_orthonormal n t hnt htt, h2, cross_neg_right, h4]

theorem sample_loop_nan_straight {sqrt : F → F} (hs : IsSqrt sqrt) (t n : Vec3 F) (ds : F)
    (htt : dot t t = 1) (hnn : dot n n = 1) (hnt : dot n t = 0) (point_index : Int)
    (remaining : Nat) (i : Int) (p normal : Vec3 F) :
    sample_loop_nan sqrt point_index (Vec3.splat 0) ds remaining i
        ⟨some p, some t, some normal, some (cross n t)⟩ =
      (List.range remaining).map fun j : Nat =>
        (point_index + i + (j : Int),
          some (Vec4.ofVec3 (p.add (Vec3.scale ((j : F) * ds) t)) 1)) := by
  induction remaining generalizing i p normal with
  | zero => rfl
  | succ k ih =>
    have hstep : sample_step_nan sqrt (Vec3.splat 0) ds
        ⟨some p, some t, some normal, some (cross n t)⟩ =
        ⟨some (p.add (Vec3.scale ds t)), some t, some n.neg, some (cross n t)⟩ := by
      simp only [sample_step_nan, update_frenet_frame_nan_zero_curvature hs t n normal ds htt hnn
        hnt, nan_lift2, Option.map_some', Option.some_bind]
    rw [sample_loop_nan, hstep, ih, List.range_succ_eq_map, List.map_cons, List.map_map]
    congr 1
    · simp [Vec3.add, Vec3.scale, Vec4.ofVec3]
    · apply List.map_congr_left
      intro j _
      simp only [Function.comp_apply, Nat.succ_eq_add_one, Nat.cast_add, Nat.cast_one,
        Option.map_some', Vec3.add, Vec3.scale, Vec4.ofVec3, Prod.mk.injEq, Option.some.injEq,
        Vec4.mk.injEq]
      refine ⟨by ring, by ring, by ring, by ring, trivial⟩

theorem normalize_nan_eq_some {sqrt : F → F} (hs : IsSqrt sqrt) (v w : Vec3 F)
    (h : normalize_nan sqrt (some v) = some w) :
    w = normalize sqrt v ∧ dot w w = 1 := by
  simp only [normalize_nan, Option.some_bind] at h
  split_ifs at h with h0
  simp only [Option.some.injEq] at h
  subst h
  exact ⟨rfl, dot_normalize_self hs v h0⟩

theorem initialize_frame_nan_of_nondegenerate {sqrt : F → F} (hs : IsSqrt sqrt) (u : Vec3 F)
    (huu : dot u u = 1) (hnd : (initialize_frame_nan sqrt (some u)).1 ≠ none) :
    ∃ n : Vec3 F, initialize_frame_nan sqrt (some u) = (some n, some (cross n u)) ∧
      dot n n = 1 ∧ dot n u = 0 := by
  obtain ⟨n, hn⟩ := Option.ne_none_iff_exists'.mp hnd
  have hprops : dot n n = 1 ∧ dot n u = 0 := by
    simp only [initialize_frame_nan] at hn
    split_ifs at hn
    · obtain ⟨h1, h2⟩ := normalize_nan_eq_some hs _ _ hn
      refine ⟨h2, ?_⟩
      rw [h1]
      unfold normalize
      rw [dot_mulScalar_left, dot_cross_left, mul_zero]
    · obtain ⟨h1, h2⟩ := normalize_nan_eq_some hs _ _ hn
      refine ⟨h2, ?_⟩
      rw [h1]
      unfold normalize
      rw [dot_mulScalar_left, dot_cross_left, mul_zero]
  refine ⟨n, ?_, hprops⟩
  have hb : dot (cross n u) (cross n u) = 1 := by
    rw [dot_cross_self, hprops.1, huu, hprops.2]
    ring
  have hfst : (initialize_frame_nan sqrt (some u)).1 = some n := hn
  have hsnd : (initialize_frame_nan sqrt (some u)).2 =
      normalize_nan sqrt (nan_lift2 cross (initialize_frame_nan sqrt (some u)).1 (some u)) := rfl
  rw [hfst] at hsnd
  simp only [nan_lift2, Option.some_bind, normalize_nan_of_dot_self_eq_one hs _ hb] at hsnd
  exact Prod.ext hfst hsnd

variable [FloorRing F]

theorem compute_curve_nan_single_straight {sqrt : F → F} (hs : IsSqrt sqrt) (tube : Tube F)
    (L : F) (B : Int) (hB : 0 < B) (hd : tube.start_direction ≠ ⟨0, 0, 0⟩)
    (hnd : (initialize_frame_nan sqrt
      (normalize_nan sqrt (some tube.start_direction))).1 ≠ none) :
    compute_curve_nan sqrt tube [LinearSegment L] B =
      (List.range B.toNat).map fun i : Nat =>
        ((i : Int),
          some (Vec4.ofVec3
            (tube.start_point.add
              (Vec3.scale ((i : F) * (L / (B : F))) (normalize sqrt tube.start_direction)))
            1)) := by
  have hdd : dot tube.start_direction tube.start_direction ≠ 0 :=
    fun h => hd ((dot_self_eq_zero_iff _).1 h)
  have hu : normalize_nan sqrt (some tube.start_direction) =
      some (normalize sqrt tube.start_direction) := by
    simp only [normalize_nan, Option.some_bind, hdd, if_false]
  have huu := dot_normalize_self hs _ hdd
  rw [hu] at hnd
  obtain ⟨n, hf, hnn, hnu⟩ := initialize_frame_nan_of_nondegenerate hs _ huu hnd
  have hN : dynamic_interpolation_points B (length sqrt (Vec3.splat (0 : F))) = B :=
    dynamic_interpolation_points_linear hs hB.le
  simp only [compute_curve_nan, hu, hf, segment_loop_nan, LinearSegment, hN, List.append_nil]
  rw [sample_loop_nan_straight hs _ n _ huu hnn hnu]
  apply List.map_congr_left
  intro j _
  simp

end StraightNan

/-! ## Claims about `compute_curve` -/

section CurveClaims

/-- C1 (evaluation at a failing input): for the tube of `main`, two linear
segments of length `1` and base density `2`, `compute_curve` writes the points
`(0,0,0)`, `(1/2,0,0)`, `(0,0,0)`, `(1/2,0,0)` at the indices `0..3`; the
output is not of the form `start_point + t · normalize(start_direction)` with
strictly increasing `t`, because the second segment starts again at
`start_point`. -/
theorem C1_two_linear_segments_restart :
    compute_curve Real.sqrt (example_tube : Tube ℝ) [LinearSegment 1, LinearSegment 1] 2 =
      [(0, ⟨0, 0, 0, 1⟩), (1, ⟨1 / 2, 0, 0, 1⟩), (2, ⟨0, 0, 0, 1⟩), (3, ⟨1 / 2, 0, 0, 1⟩)] ∧
    ¬ spec_on_line_increasing Real.sqrt (example_tube : Tube ℝ)
        (compute_curve Real.sqrt (example_tube : Tube ℝ)
          [LinearSegment 1, LinearSegment 1] 2) := by
  refine ⟨compute_curve_two_linear real_isSqrt, ?_⟩
  rw [compute_curve_two_linear real_isSqrt]
  rintro ⟨t, hp, hf⟩
  cases hf with
  | cons h0 hf =>
    cases hf with
    | cons h1 hf =>
      cases hf with
      | cons h2 hf =>
        simp only [example_tube, normalize_x_axis real_isSqrt, Vec4.ofVec3, Vec3.add, Vec3.scale,
          Vec4.mk.injEq] at h0 h2
        have e0 := h0.1
        have e2 := h2.1
        simp only [List.pairwise_cons, List.mem_cons] at hp
        have hlt := hp.1 _ (Or.inr (Or.inl rfl))
        linarith

/-- C2 (evaluation at a failing input): for the tube of `main`, two linear
segments of length `1` and base density `2`, both segments are sampled from the
same state (the tube's start pose with the seed frame): the second segment's
samples, written from index `2`, start at position `(0,0,0)` with normal
`(0,-1,0)`, whereas two integrator steps along the first segment end at
position `(1,0,0)` with normal `(0,1,0)`. -/
theorem C2_second_segment_starts_from_tube_start :
    compute_curve Real.sqrt (example_tube : Tube ℝ) [LinearSegment 1, LinearSegment 1] 2 =
      sample_loop Real.sqrt 0 (Vec3.splat 0) (1 / 2) 2 0
          ⟨⟨0, 0, 0⟩, ⟨1, 0, 0⟩, ⟨0, -1, 0⟩, ⟨0, 0, 1⟩⟩ ++
        sample_loop Real.sqrt 2 (Vec3.splat 0) (1 / 2) 2 0
          ⟨⟨0, 0, 0⟩, ⟨1, 0, 0⟩, ⟨0, -1, 0⟩, ⟨0, 0, 1⟩⟩ ∧
    sample_step Real.sqrt (Vec3.splat 0) (1 / 2)
        (sample_step Real.sqrt (Vec3.splat 0) (1 / 2)
          (⟨⟨0, 0, 0⟩, ⟨1, 0, 0⟩, ⟨0, -1, 0⟩, ⟨0, 0, 1⟩⟩ : LocalState ℝ)) =
      ⟨⟨1, 0, 0⟩, ⟨1, 0, 0⟩, ⟨0, 1, 0⟩, ⟨0, 0, 1⟩⟩ ∧
    (⟨⟨1, 0, 0⟩, ⟨1, 0, 0⟩, ⟨0, 1, 0⟩, ⟨0, 0, 1⟩⟩ : LocalState ℝ) ≠
      ⟨⟨0, 0, 0⟩, ⟨1, 0, 0⟩, ⟨0, -1, 0⟩, ⟨0, 0, 1⟩⟩ := by
  have hN : dynamic_interpolation_points 2 (length Real.sqrt (Vec3.splat (0 : ℝ))) = 2 :=
    dynamic_interpolation_points_linear real_isSqrt (by decide)
  refine ⟨?_, ?_, ?_⟩
  · simp [compute_curve, example_tube, segment_loop, LinearSegment, hN,
      normalize_x_axis real_isSqrt, initialize_frame_x_axis real_isSqrt]
  · simp only [sample_step, update_frenet_frame_straight real_isSqrt, Vec3.add, Vec3.scale]
    norm_num
  · intro h
    have := congrArg (fun s => s.local_position.x) h
    norm_num at this

/-- C3 (evaluation at a failing input): for the tube of `main`, base density
`1` and the mixed chain of a linear segment and a segment of curvature
`(2,0,0)`, the size computed by `compute_curve` is
`total_points = 1 · 2 = 2`, while the sampling loops write `1 + 2 = 3`
points. -/
theorem C3_total_points_is_fixed_estimate :
    total_points 1 [LinearSegment (1 : ℝ), CurvedSegment Real.pi 1 ⟨2, 0, 0⟩] = 2 ∧
    (compute_curve Real.sqrt (example_tube : Tube ℝ)
      [LinearSegment (1 : ℝ), CurvedSegment Real.pi 1 ⟨2, 0, 0⟩] 1).length = 3 ∧
    ([LinearSegment (1 : ℝ), CurvedSegment Real.pi 1 ⟨2, 0, 0⟩].map fun segment =>
      dynamic_interpolation_points 1 (length Real.sqrt segment.curvature)).sum = 3 := by
  have h1 : dynamic_interpolation_points 1 (length Real.sqrt (Vec3.splat (0 : ℝ))) = 1 :=
    dynamic_interpolation_points_linear real_isSqrt (by decide)
  have h2 : dynamic_interpolation_points 1 (length Real.sqrt (⟨2, 0, 0⟩ : Vec3 ℝ)) = 2 := by
    rw [length_x_axis real_isSqrt (by norm_num : (0 : ℝ) ≤ 2)]
    unfold dynamic_interpolation_points
    rw [to_int_of_nonneg (by norm_num) (by norm_num)]
    have : ⌊((1 : Int) : ℝ) * 2⌋ = 2 := by
      rw [Int.floor_eq_iff]
      norm_num
    rw [this]
    decide
  refine ⟨by simp [total_points], ?_, ?_⟩
  · simp [compute_curve, segment_loop_length, LinearSegment, CurvedSegment, h1, h2]
  · simp [LinearSegment, CurvedSegment, h1, h2]

/-- C10 (evaluation at the failing input): the call of `main`, a buffer of
`100` elements, the two example segments and base density `100`, writes a point
at index `100`, outside the buffer; the call does not fail, and replaying its
writes on the 100-element buffer is undefined. -/
theorem C10_demo_call_writes_out_of_range :
    (100, (⟨0, 0, 0, 1⟩ : Vec4 ℝ)) ∈
      compute_curve Real.sqrt (example_tube : Tube ℝ) (example_segment_data Real.pi) 100 ∧
    (∃ writes, compute_curve_result Real.sqrt (example_tube : Tube ℝ)
      (example_segment_data Real.pi) 100 = Except.ok writes) ∧
    write_points (List.replicate 100 (⟨0, 0, 0, 0⟩ : Vec4 ℝ))
      (compute_curve Real.sqrt (example_tube : Tube ℝ) (example_segment_data Real.pi) 100) =
      none := by
  have hN : dynamic_interpolation_points 100 (length Real.sqrt (Vec3.splat (0 : ℝ))) = 100 :=
    dynamic_interpolation_points_linear real_isSqrt (by decide)
  have hmem : (100, (⟨0, 0, 0, 1⟩ : Vec4 ℝ)) ∈
      compute_curve Real.sqrt (example_tube : Tube ℝ) (example_segment_data Real.pi) 100 := by
    have h := segment_loop_second_segment_start Real.sqrt (by decide : (0 : Int) < 100)
      (example_tube : Tube ℝ).start_point
      (normalize Real.sqrt (example_tube : Tube ℝ).start_direction)
      (initialize_frame Real.sqrt (normalize Real.sqrt (example_tube : Tube ℝ).start_direction)).1
      (initialize_frame Real.sqrt (normalize Real.sqrt (example_tube : Tube ℝ).start_direction)).2
      (LinearSegment 1) (CurvedSegment Real.pi (1 / 2) ⟨1 / 10, 2 / 10, 3 / 10⟩) [] 0
    simp only [LinearSegment, hN] at h
    simpa [compute_curve, example_segment_data, LinearSegment, example_tube, Vec4.ofVec3] using h
  refine ⟨hmem, ⟨_, rfl⟩, ?_⟩
  exact write_points_out_of_range _ _ ⟨_, hmem, by simp⟩

/-- C12: in `compute_curve` the `j`-th sample (`0 ≤ j < N_k`) of a segment is
written at the index `(sum of the counts of the preceding segments) + j`, as
the write number `offset + j` of the run and with weight `1`; the indices
written are `0, 1, 2, ...` in this order, each exactly once, every written
point has weight `1`, and the number of writes is the sum of all counts. -/
theorem C12_write_indices {F : Type} [LinearOrderedField F] [FloorRing F] (sqrt : F → F)
    (hs : IsSqrt sqrt) (tube : Tube F) (pre : List (Segment F)) (segment : Segment F)
    (post : List (Segment F)) (B : Int) (j : Nat)
    (hj : (j : Int) < dynamic_interpolation_points B (length sqrt segment.curvature)) :
    (compute_curve sqrt tube (pre ++ segment :: post) B)[
        ((pre.map fun s => dynamic_interpolation_points B (length sqrt s.curvature)).sum).toNat
          + j]? =
      some ((pre.map fun s => dynamic_interpolation_points B (length sqrt s.curvature)).sum
          + (j : Int),
        Vec4.ofVec3
          ((sample_step sqrt segment.curvature (step_size sqrt B segment))^[j]
            ⟨tube.start_point, normalize sqrt tube.start_direction,
              (initialize_frame sqrt (normalize sqrt tube.start_direction)).1,
              (initialize_frame sqrt (normalize sqrt tube.start_direction)).2⟩).local_position
          1) ∧
    (compute_curve sqrt tube (pre ++ segment :: post) B).map Prod.fst =
      (List.range (compute_curve sqrt tube (pre ++ segment :: post) B).length).map
        (fun i : Nat => (i : Int)) ∧
    (∀ w ∈ compute_curve sqrt tube (pre ++ segment :: post) B, w.2.w = 1) ∧
    ((compute_curve sqrt tube (pre ++ segment :: post) B).length : Int) =
      ((pre ++ segment :: post).map fun s =>
        dynamic_interpolation_points B (length sqrt s.curvature)).sum := by
  have hB : 0 < B := by
    by_contra hB
    have := dynamic_interpolation_points_nonpos hs (not_lt.mp hB) segment.curvature
    omega
  have hoff := @sum_counts_toNat F _ _ sqrt B hB pre
  have hjN : j < (dynamic_interpolation_points B (length sqrt segment.curvature)).toNat := by
    omega
  refine ⟨?_, ?_, ?_, ?_⟩
  · simp only [compute_curve]
    rw [segment_loop_append, List.getElem?_append_right (by rw [segment_loop_length]; omega),
      segment_loop_length]
    have hidx : ((pre.map fun s =>
          dynamic_interpolation_points B (length sqrt s.curvature)).sum).toNat + j -
        (pre.map fun s =>
          (dynamic_interpolation_points B (length sqrt s.curvature)).toNat).sum = j := by
      omega
    rw [hidx]
    simp only [segment_loop]
    rw [List.getElem?_append_left (by rw [sample_loop_length]; exact hjN),
      sample_loop_getElem? _ _ _ _ _ _ _ j hjN]
    simp [step_size]
  · simp only [compute_curve]
    rw [segment_loop_indices hs]
    simp
  · exact segment_loop_weight _ _ _ _ _ _ _ _
  · simp only [compute_curve]
    rw [segment_loop_length, sum_counts_toNat hB]

/-- Witness of C12: the second sample (`j = 1`) of the curved segment of the
demo program at base density `100`. -/
theorem C12_write_indices_witness :
    IsSqrt Real.sqrt ∧
    ((1 : Nat) : Int) < dynamic_interpolation_points 100
      (length Real.sqrt (CurvedSegment Real.pi (1 / 2) ⟨1 / 10, 2 / 10, 3 / 10⟩).curvature) ∧
    (compute_curve Real.sqrt (example_tube : Tube ℝ)
        ([LinearSegment 1] ++ CurvedSegment Real.pi (1 / 2) ⟨1 / 10, 2 / 10, 3 / 10⟩ :: [])
        100).map Prod.fst =
      (List.range (compute_curve Real.sqrt (example_tube : Tube ℝ)
        ([LinearSegment 1] ++ CurvedSegment Real.pi (1 / 2) ⟨1 / 10, 2 / 10, 3 / 10⟩ :: [])
        100).length).map (fun i : Nat => (i : Int)) :=
  have h : ((1 : Nat) : Int) < dynamic_interpolation_points 100
      (length Real.sqrt
        (CurvedSegment Real.pi (1 / 2) ⟨1 / 10, 2 / 10, 3 / 10⟩).curvature) :=
    lt_of_lt_of_le (by decide) (le_max_left _ _)
  ⟨real_isSqrt, h,
    (C12_write_indices Real.sqrt real_isSqrt (example_tube : Tube ℝ) [LinearSegment 1]
      (CurvedSegment Real.pi (1 / 2) ⟨1 / 10, 2 / 10, 3 / 10⟩) [] 100 1 h).2.1⟩

/-- C16 (evaluation at a failing input): for a tube with `start_point (0,0,0)`
and `start_direction (0,0,-1)`, one linear segment of length `1` and base
density `3`, the seed normal and binormal are NaN (normalisation of the zero
vector `cross(tangent, z)`), the first update turns the tangent into NaN, and
the third point written has NaN coordinates instead of `(0, 0, -2/3)`. -/
theorem C16_anti_parallel_start_direction_gives_nan :
    initialize_frame_nan Real.sqrt (normalize_nan Real.sqrt (some (⟨0, 0, -1⟩ : Vec3 ℝ))) =
      (none, none) ∧
    (sample_step_nan Real.sqrt (Vec3.splat 0) (1 / 3)
      ⟨some ⟨0, 0, 0⟩, normalize_nan Real.sqrt (some (⟨0, 0, -1⟩ : Vec3 ℝ)), none,
        none⟩).local_tangent = none ∧
    compute_curve_nan Real.sqrt
        (⟨"ExampleTube", 2, 1, 8 / 10, 1 / 10, ⟨0, 0, 0⟩, ⟨0, 0, 0⟩, ⟨0, 0, -1⟩⟩ : Tube ℝ)
        [LinearSegment 1] 3 =
      [(0, some ⟨0, 0, 0, 1⟩), (1, some ⟨0, 0, -(1 / 3), 1⟩), (2, none)] := by
  have hN : dynamic_interpolation_points 3 (length Real.sqrt (Vec3.splat (0 : ℝ))) = 3 :=
    dynamic_interpolation_points_linear real_isSqrt (by decide)
  have ht : normalize_nan Real.sqrt (some (⟨0, 0, -1⟩ : Vec3 ℝ)) = some ⟨0, 0, -1⟩ := by
    have h := (initialize_frame_neg_z_axis real_isSqrt).1
    simp only [normalize_nan, Option.some_bind, dot]
    rw [if_neg (by norm_num), h]
  have hf : initialize_frame_nan Real.sqrt (some (⟨0, 0, -1⟩ : Vec3 ℝ)) = (none, none) := by
    have h1 : ¬ ((99 : ℝ) / 100 ≤ -1) := by norm_num
    simp [initialize_frame_nan, normalize_nan, nan_lift2, dot, cross, h1]
  refine ⟨by rw [ht, hf], ?_, ?_⟩
  · simp [sample_step_nan, update_frenet_frame_nan, nan_lift2, normalize_nan]
  · simp only [compute_curve_nan, ht, hf, segment_loop_nan, LinearSegment, hN]
    simp [sample_loop_nan, sample_step_nan, update_frenet_frame_nan, nan_lift2, normalize_nan,
      Vec4.ofVec3, Vec3.add, Vec3.scale]

end CurveClaims

/-! ## The value objects: tubes and segments (C13, C14, C15, C18) -/

section ValueObjects

variable {F : Type} [LinearOrderedField F]

theorem vec3_operator_eq_iff (a b : Vec3 F) : Vec3.operator_eq a b = true ↔ a = b := by
  simp only [Vec3.operator_eq, Bool.and_eq_true, decide_eq_true_eq]
  constructor
  · rintro ⟨⟨hx, hy⟩, hz⟩
    exact Vec3.ext hx hy hz
  · rintro rfl
    exact ⟨⟨rfl, rfl⟩, rfl⟩

theorem nan_eq_iff (a b : Option F) : nan_eq a b = true ↔ a = b ∧ a ≠ none := by
  cases a <;> cases b <;> simp [nan_eq]

theorem core_tube_operator_eq_iff (a b : CORE.Tube F) :
    CORE.Tube.operator_eq a b = true ↔
      a = b ∧ a._length ≠ none ∧ a._outer_diameter ≠ none ∧ a._inner_diameter ≠ none ∧
        a._wall_thickness ≠ none := by
  simp only [CORE.Tube.operator_eq, Bool.and_eq_true, decide_eq_true_eq, vec3_operator_eq_iff,
    nan_eq_iff]
  constructor
  · rintro ⟨⟨⟨⟨⟨h1, h2, n2⟩, h3, n3⟩, h4, n4⟩, h5, n5⟩, h6⟩
    refine ⟨?_, n2, n3, n4, n5⟩
    cases a
    cases b
    simp only [CORE.Tube.mk.injEq]
    exact ⟨h1, h2, h3, h4, h5, h6⟩
  · rintro ⟨rfl, n2, n3, n4, n5⟩
    exact ⟨⟨⟨⟨⟨rfl, rfl, n2⟩, rfl, n3⟩, rfl, n4⟩, rfl, n5⟩, rfl⟩

theorem tube_operator_eq_iff (a b : Tube F) :
    Tube.operator_eq a b = true ↔
      a.name = b.name ∧ a.length = b.length ∧ a.outer_diameter = b.outer_diameter ∧
        a.inner_diameter = b.inner_diameter ∧ a.wall_thickness = b.wall_thickness ∧
        a.curvature = b.curvature := by
  simp only [Tube.operator_eq, Bool.and_eq_true, decide_eq_true_eq, vec3_operator_eq_iff]
  tauto

/-- C14 as stated fails: `LinearSegment(-1.0)` is constructed without being
rejected and its stored length `-1` is not positive. -/
theorem C14_counterexample :
    (LinearSegment (-1 : ℝ)).length = -1 ∧ ¬ (0 < (LinearSegment (-1 : ℝ)).length) := by
  simp [LinearSegment]

/-- C14 (amended): `LinearSegment(len)` stores the length `len` and the
curvature `(0,0,0)`; `CurvedSegment(len, c)` stores the length `len * 2 * pi`
and the curvature `c`; the constructors check nothing, and the stored length
is positive exactly when `len` is. -/
theorem C14_segment_constructors (pi : F) (hpi : 0 < pi) (len : F) (c : Vec3 F) :
    (LinearSegment len).length = len ∧ (LinearSegment len).curvature = ⟨0, 0, 0⟩ ∧
    (CurvedSegment pi len c).length = len * 2 * pi ∧ (CurvedSegment pi len c).curvature = c ∧
    (0 < (LinearSegment len).length ↔ 0 < len) ∧
    (0 < (CurvedSegment pi len c).length ↔ 0 < len) := by
  refine ⟨rfl, rfl, rfl, rfl, Iff.rfl, ?_⟩
  simp only [CurvedSegment]
  constructor
  · intro h
    by_contra hc
    push_neg at hc
    nlinarith [mul_nonneg (neg_nonneg.mpr hc) hpi.le]
  · intro h
    positivity

/-- Witness of the amended C14: the curved segment of the demo program, with
`pi` the real number π. -/
theorem C14_segment_constructors_witness :
    (0 : ℝ) < Real.pi ∧
    (LinearSegment (1 / 2 : ℝ)).length = 1 / 2 ∧
    (LinearSegment (1 / 2 : ℝ)).curvature = ⟨0, 0, 0⟩ ∧
    (CurvedSegment Real.pi (1 / 2) ⟨1 / 10, 2 / 10, 3 / 10⟩).length = 1 / 2 * 2 * Real.pi ∧
    (CurvedSegment Real.pi (1 / 2) ⟨1 / 10, 2 / 10, 3 / 10⟩).curvature =
      ⟨1 / 10, 2 / 10, 3 / 10⟩ ∧
    (0 < (LinearSegment (1 / 2 : ℝ)).length ↔ (0 : ℝ) < 1 / 2) ∧
    (0 < (CurvedSegment Real.pi (1 / 2) ⟨1 / 10, 2 / 10, 3 / 10⟩).length ↔ (0 : ℝ) < 1 / 2) :=
  ⟨Real.pi_pos, C14_segment_constructors Real.pi Real.pi_pos (1 / 2) ⟨1 / 10, 2 / 10, 3 / 10⟩⟩

/-- C15 (evaluation at a failing input): the tube of `main` and a copy of it
with `start_point (5,5,5)` and `start_direction (0,1,0)` are different `Tube`
values of `src/main.cpp`, yet `operator==` returns true for them. -/
theorem C15_equality_ignores_start_pose :
    Tube.operator_eq (example_tube : Tube ℝ)
        ⟨"ExampleTube", 2, 1, 8 / 10, 1 / 10, ⟨0, 0, 0⟩, ⟨5, 5, 5⟩, ⟨0, 1, 0⟩⟩ = true ∧
    (example_tube : Tube ℝ) ≠
      ⟨"ExampleTube", 2, 1, 8 / 10, 1 / 10, ⟨0, 0, 0⟩, ⟨5, 5, 5⟩, ⟨0, 1, 0⟩⟩ := by
  refine ⟨(tube_operator_eq_iff _ _).2 ⟨rfl, rfl, rfl, rfl, rfl, rfl⟩, fun h => ?_⟩
  have := congrArg (fun t => t.start_point.x) h
  simp [example_tube] at this

/-- C18: on tubes with `inner_diameter < outer_diameter`, `valid_combination`
is irreflexive, transitive and asymmetric. -/
theorem C18_valid_combination_strict_order (a b c : Tube F)
    (ha : a.inner_diameter < a.outer_diameter) (hb : b.inner_diameter < b.outer_diameter)
    (_hc : c.inner_diameter < c.outer_diameter) :
    valid_combination a a = false ∧
    (valid_combination a b = true → valid_combination b c = true →
      valid_combination a c = true) ∧
    (valid_combination a b = true → valid_combination b a = false) := by
  simp only [valid_combination, Bool.and_eq_true, Bool.and_eq_false_iff, decide_eq_true_eq,
    decide_eq_false_iff_not, gt_iff_lt, ge_iff_le, not_lt, not_le]
  refine ⟨Or.inl ha.le, ?_, ?_⟩
  · rintro ⟨h1, h2⟩ ⟨h3, h4⟩
    exact ⟨lt_trans (lt_trans h1 hb) h3, le_trans h2 h4⟩
  · rintro ⟨h1, -⟩
    exact Or.inl (le_of_lt (lt_trans ha (lt_trans h1 hb)))

/-- Witness of C18: three nested tubes with diameters `(1, 0.8)`, `(2, 1.5)`
and `(3, 2.5)` and lengths `2`, `3`, `4`. -/
theorem C18_valid_combination_strict_order_witness :
    (8 / 10 : ℝ) < 1 ∧ (15 / 10 : ℝ) < 2 ∧ (25 / 10 : ℝ) < 3 ∧
    valid_combination (example_tube : Tube ℝ) example_tube = false ∧
    (valid_combination (example_tube : Tube ℝ)
        ⟨"B", 3, 2, 15 / 10, 1 / 4, ⟨0, 0, 0⟩, ⟨0, 0, 0⟩, ⟨1, 0, 0⟩⟩ = true →
      valid_combination (⟨"B", 3, 2, 15 / 10, 1 / 4, ⟨0, 0, 0⟩, ⟨0, 0, 0⟩, ⟨1, 0, 0⟩⟩ : Tube ℝ)
        ⟨"C", 4, 3, 25 / 10, 1 / 4, ⟨0, 0, 0⟩, ⟨0, 0, 0⟩, ⟨1, 0, 0⟩⟩ = true →
      valid_combination (example_tube : Tube ℝ)
        ⟨"C", 4, 3, 25 / 10, 1 / 4, ⟨0, 0, 0⟩, ⟨0, 0, 0⟩, ⟨1, 0, 0⟩⟩ = true) ∧
    (valid_combination (example_tube : Tube ℝ)
        ⟨"B", 3, 2, 15 / 10, 1 / 4, ⟨0, 0, 0⟩, ⟨0, 0, 0⟩, ⟨1, 0, 0⟩⟩ = true →
      valid_combination (⟨"B", 3, 2, 15 / 10, 1 / 4, ⟨0, 0, 0⟩, ⟨0, 0, 0⟩, ⟨1, 0, 0⟩⟩ : Tube ℝ)
        example_tube = false) :=
  ⟨by norm_num, by norm_num, by norm_num,
    C18_valid_combination_strict_order (example_tube : Tube ℝ)
      ⟨"B", 3, 2, 15 / 10, 1 / 4, ⟨0, 0, 0⟩, ⟨0, 0, 0⟩, ⟨1, 0, 0⟩⟩
      ⟨"C", 4, 3, 25 / 10, 1 / 4, ⟨0, 0, 0⟩, ⟨0, 0, 0⟩, ⟨1, 0, 0⟩⟩
      (by simp only [example_tube]; norm_num) (by norm_num) (by norm_num)⟩

end ValueObjects

end TubeGen
